import Mathlib

/-!
Shallow embedding of the territory-conquest game engine found in
`src/server.js` (class `Game`, pooled-troop model), together with proofs
about its commands (`spawn`, `attack`, `expand`, `buildPort`, `buildCity`),
its growth tick (`update`) and its bot behaviour (`botAct`).

Modelling conventions:
* JS arrays become `List`; `arr[i]` with an out-of-range or negative index
  yields `undefined`, modelled by `Option` (`none`).
* An operation that would throw a `TypeError` (a property access on
  `undefined`) is modelled by the result `none`; a normally returning
  operation yields `some (flag, state)`.
* The JS object `this.players` (string keys, insertion order) becomes an
  association list `List (String × Player)`; `Set<int>` becomes `Finset Nat`.
* JS numbers holding troop counts are integers at every program point, so
  they are modelled by `Int`; the attack `percent` argument is a genuine
  fraction and is modelled by `ℚ`, with `Math.floor` becoming `Int.floor`
  and `Math.floor` of an integer division becoming `Int.fdiv`.
* Player ids generated by the server are nonempty random strings, so JS
  truthiness of `cell.owner` is modelled by `Option.isSome`.
-/

namespace OpenFront

/-- One grid cell: `land` (immutable mask bit), `owner`, legacy per-cell
`troops`, and the two fortification flags, exactly the fields built in the
`Game` constructor of `src/server.js`. -/
structure Cell where
  land : Bool
  owner : Option String
  troops : Int
  port : Bool
  city : Bool
deriving DecidableEq

/-- One player record: `this.players[id] = { id, name, color, cells, troops }`.
The random display color is irrelevant to the engine and omitted. -/
structure Player where
  id : String
  name : String
  troops : Int
  cells : Finset Nat
deriving DecidableEq

/-- The whole world: grid dimensions, flattened cell array (index `y*W+x`),
and the player table in insertion order. -/
structure Game where
  gridW : Nat
  gridH : Nat
  cells : List Cell
  players : List (String × Player)
deriving DecidableEq

/-- `MAX_PLAYERS_PER_GAME` from `src/server.js`. -/
def MAX_PLAYERS : Nat := 10

/-- Linear index `y * GRID_W + x` (computed over `Int`, as JS does:
out-of-range coordinates can produce a negative index or silently wrap to a
different in-range cell). -/
def idxOf (g : Game) (x y : Int) : Int := y * (g.gridW : Int) + x

/-- `this.cells[idx]` with JS array semantics: `undefined` (`none`) for a
negative or too-large index. -/
def getCell (g : Game) (idx : Int) : Option Cell :=
  if idx < 0 then none else g.cells[idx.toNat]?

/-- `this.players[id]`. -/
def lookupPlayer (g : Game) (id : String) : Option Player :=
  (g.players.find? (fun kp => kp.1 == id)).map Prod.snd

/-- Overwrite the table entry for `id` (the JS mutation of a looked-up
player object). -/
def setPlayer (g : Game) (id : String) (p : Player) : Game :=
  { g with players := g.players.map (fun kp => if kp.1 == id then (kp.1, p) else kp) }

/-- Overwrite one cell (the JS mutation of a looked-up cell object). -/
def setCell (g : Game) (idx : Nat) (c : Cell) : Game :=
  { g with cells := g.cells.set idx c }

/-- `Game.addPlayer` (`src/server.js:48`): refuse when the roster is full,
otherwise insert a fresh player with no territory and zero troops. -/
def addPlayer (g : Game) (id name : String) : Bool × Game :=
  if MAX_PLAYERS ≤ g.players.length then (false, g)
  else (true, { g with players :=
    g.players ++ [(id, { id := id, name := name, troops := 0, cells := ∅ })] })

/-- Reset of one cell performed by `Game.removePlayer` on every owned cell. -/
def clearCell (c : Cell) : Cell :=
  { c with owner := none, troops := 0, port := false, city := false }

/-- Clear every cell whose index lies in `owned`, walking the list with an
explicit running index (the functional form of the `for (const cellIdx of
player.cells)` loop). -/
def clearOwned (owned : Finset Nat) : Nat → List Cell → List Cell
  | _, [] => []
  | i, c :: rest =>
    (if i ∈ owned then clearCell c else c) :: clearOwned owned (i + 1) rest

/-- `Game.removePlayer` (`src/server.js:59`): free the territory, then delete
the table entry; a missing id is a silent no-op. -/
def removePlayer (g : Game) (id : String) : Game :=
  match lookupPlayer g id with
  | none => g
  | some p =>
    { g with
      cells := clearOwned p.cells 0 g.cells,
      players := g.players.filter (fun kp => ¬ kp.1 == id) }

/-- `Game.spawn` (`src/server.js:75`).  `none` models the `TypeError` thrown
when the computed index is outside the array (`cell.land` on `undefined`) or
when the id has no player entry (`this.players[id].cells`). -/
def spawn (g : Game) (id : String) (x y : Int) : Option (Bool × Game) :=
  let idx := idxOf g x y
  match getCell g idx with
  | none => none
  | some cell =>
    if cell.land = false ∨ cell.owner.isSome then some (false, g)
    else
      match lookupPlayer g id with
      | none => none
      | some p =>
        let g1 := setCell g idx.toNat
          { cell with owner := some id, troops := 0, port := false, city := false }
        let g2 := setPlayer g1 id
          { p with cells := insert idx.toNat p.cells, troops := p.troops + 10 }
        some (true, g2)

/-- `const toSend = Math.floor(totalTroops * percent)` (`src/server.js:120`). -/
def toSendOf (troops : Int) (percent : ℚ) : Int := ⌊(troops : ℚ) * percent⌋

/-- The movement validation of `Game.attack` (`src/server.js:101-117`):
either Chebyshev distance 1, or Chebyshev distance 2 from a port where the
cell one signed step towards the target is water and the destination cell is
land. -/
def geomOk (g : Game) (srcCell : Cell) (srcX srcY dstX dstY : Int) : Bool :=
  let dx := dstX - srcX
  let dy := dstY - srcY
  let maxStep := max dx.natAbs dy.natAbs
  if maxStep = 1 then true
  else if maxStep = 2 ∧ srcCell.port = true then
    match getCell g (idxOf g (srcX + dx.sign) (srcY + dy.sign)),
          getCell g (idxOf g dstX dstY) with
    | some midCell, some dstCell => !midCell.land && dstCell.land
    | _, _ => false
  else false

/-- `Game.attack` (`src/server.js:94-154`), byte-for-byte in control flow:
validation, troop debit, then resolution against the destination owner.
`none` models the `TypeError` at line 125 (`dstCell.owner` on `undefined`)
which can only happen after the troop debit. -/
def attack (g : Game) (id : String) (srcX srcY dstX dstY : Int) (percent : ℚ) :
    Option (Bool × Game) :=
  let srcIdx := idxOf g srcX srcY
  let dstIdx := idxOf g dstX dstY
  match lookupPlayer g id, getCell g srcIdx with
  | none, _ => some (false, g)
  | some _, none => some (false, g)
  | some player, some srcCell =>
    if srcCell.owner ≠ some id then some (false, g)
    else if geomOk g srcCell srcX srcY dstX dstY = false then some (false, g)
    else
      let toSend := toSendOf player.troops percent
      if toSend < 1 then some (false, g)
      else
        let player1 := { player with troops := player.troops - toSend }
        let g1 := setPlayer g id player1
        match getCell g dstIdx with
        | none => none
        | some dstCell =>
          match dstCell.owner with
          | none =>
            let g2 := setCell g1 dstIdx.toNat
              { dstCell with owner := some id, port := false, city := false }
            let g3 := setPlayer g2 id
              { player1 with cells := insert dstIdx.toNat player1.cells }
            some (true, g3)
          | some defenderId =>
            if defenderId = id then some (false, g1)
            else
              match lookupPlayer g1 defenderId with
              | none => some (false, g1)
              | some defender =>
                if defender.troops < toSend then
                  let g2 := setPlayer g1 defenderId
                    { defender with
                      troops := 0
                      cells := defender.cells.erase dstIdx.toNat }
                  let g3 := setCell g2 dstIdx.toNat
                    { dstCell with owner := some id, port := false, city := false }
                  let g4 := setPlayer g3 id
                    { player1 with cells := insert dstIdx.toNat player1.cells }
                  some (true, g4)
                else
                  some (true, setPlayer g1 defenderId
                    { defender with troops := defender.troops - toSend })

/-- The neighbour offsets visited by the `for (let j ...) for (let i ...)`
loops of `src/server.js`, in loop order, `(i, j)` = `(dx, dy)`. -/
def neighborOffsets : List (Int × Int) :=
  [(-1, -1), (0, -1), (1, -1), (-1, 0), (1, 0), (-1, 1), (0, 1), (1, 1)]

/-- The `dirs` array used for port jumps (`src/server.js:183-186`). -/
def portDirs : List (Int × Int) :=
  [(-1, 0), (1, 0), (0, -1), (0, 1), (-1, -1), (-1, 1), (1, -1), (1, 1)]

/-- The coordinate bounds test `nx < 0 || ny < 0 || nx >= GRID_W || ny >= GRID_H`
(negated). -/
def inBounds (g : Game) (x y : Int) : Bool :=
  0 ≤ x ∧ 0 ≤ y ∧ x < (g.gridW : Int) ∧ y < (g.gridH : Int)

/-- The target list built by `Game.expand` (`src/server.js:166-199`): all
in-bounds Moore neighbours whose cell is not owned by the player, followed
(when the source has a port) by the port-jump destinations in `dirs` order. -/
def expandTargets (g : Game) (id : String) (x y : Int) (srcCell : Cell) :
    List (Int × Int) :=
  (neighborOffsets.filterMap (fun d =>
    let nx := x + d.1
    let ny := y + d.2
    if inBounds g nx ny then
      match getCell g (idxOf g nx ny) with
      | none => none
      | some ncell => if ncell.owner ≠ some id then some (nx, ny) else none
    else none)) ++
  (if srcCell.port then
    portDirs.filterMap (fun d =>
      let destX := x + d.1 * 2
      let destY := y + d.2 * 2
      if inBounds g destX destY then
        match getCell g (idxOf g (x + d.1) (y + d.2)),
              getCell g (idxOf g destX destY) with
        | some midCell, some destCell =>
          if midCell.land = false ∧ destCell.land = true ∧ destCell.owner ≠ some id
          then some (destX, destY) else none
        | _, _ => none
      else none)
  else [])

/-- The `for (const t of targets)` loop of `Game.expand`: run `attack` on
each target in order, threading the state and or-ing the success flags. -/
def runAttacks (id : String) (x y : Int) (per : ℚ) :
    List (Int × Int) → Game → Bool → Option (Bool × Game)
  | [], g, anyOk => some (anyOk, g)
  | t :: rest, g, anyOk =>
    match attack g id x y t.1 t.2 per with
    | none => none
    | some (ok, g') => runAttacks id x y per rest g' (anyOk || ok)

/-- `Game.expand` (`src/server.js:159-209`). -/
def expand (g : Game) (id : String) (x y : Int) (percent : ℚ) :
    Option (Bool × Game) :=
  match getCell g (idxOf g x y) with
  | none => some (false, g)
  | some srcCell =>
    if srcCell.owner ≠ some id then some (false, g)
    else
      match lookupPlayer g id with
      | none => some (false, g)
      | some _ =>
        let targets := expandTargets g id x y srcCell
        if targets.length = 0 then some (false, g)
        else runAttacks id x y (percent / (targets.length : ℚ)) targets g false

/-- The water-adjacency scan of `Game.buildPort` (`src/server.js:219-231`). -/
def hasWaterNeighbor (g : Game) (x y : Int) : Bool :=
  neighborOffsets.any (fun d =>
    let nx := x + d.1
    let ny := y + d.2
    inBounds g nx ny &&
      match getCell g (idxOf g nx ny) with
      | some ncell => !ncell.land
      | none => false)

/-- `Game.buildPort` (`src/server.js:213-236`): every access is guarded, so
this command never throws. -/
def buildPort (g : Game) (id : String) (x y : Int) : Bool × Game :=
  let idx := idxOf g x y
  match getCell g idx with
  | none => (false, g)
  | some cell =>
    if cell.owner ≠ some id ∨ cell.land = false ∨ cell.port = true then (false, g)
    else if hasWaterNeighbor g x y = false then (false, g)
    else
      match lookupPlayer g id with
      | none => (false, g)
      | some p =>
        if p.troops < 5 then (false, g)
        else (true, setCell (setPlayer g id { p with troops := p.troops - 5 })
          idx.toNat { cell with port := true })

/-- `Game.buildCity` (`src/server.js:240-249`). -/
def buildCity (g : Game) (id : String) (x y : Int) : Bool × Game :=
  let idx := idxOf g x y
  match getCell g idx with
  | none => (false, g)
  | some cell =>
    if cell.owner ≠ some id ∨ cell.land = false ∨ cell.city = true then (false, g)
    else
      match lookupPlayer g id with
      | none => (false, g)
      | some p =>
        if p.troops < 10 then (false, g)
        else (true, setCell (setPlayer g id { p with troops := p.troops - 10 })
          idx.toNat { cell with city := true })

/-- `if (cell.city) cityCount += 1` over the player's cells
(`src/server.js:258-262`). -/
def cellCity (g : Game) (i : Nat) : Bool :=
  match g.cells[i]? with
  | some c => c.city
  | none => false

/-- Number of owned cells carrying a city. -/
def cityCountOf (g : Game) (p : Player) : Nat :=
  (p.cells.filter (fun i => cellCity g i = true)).card

/-- `maxTroops = 5 + Math.floor(territorySize / 2) + cityCount * 5`
(`src/server.js:263`). -/
def capacityOf (g : Game) (p : Player) : Int :=
  5 + ((p.cells.card / 2 : Nat) : Int) + ((cityCountOf g p : Int)) * 5

/-- One application of the growth rule to a troop count:
`Math.min(troops + Math.max(1, Math.floor(troops / 3)), maxTroops)`
(`src/server.js:264-265`). -/
def growthStep (cap t : Int) : Int := min (t + max 1 (t.fdiv 3)) cap

/-- The per-player body of the growth loop in `Game.update`. -/
def growPlayer (g : Game) (p : Player) : Player :=
  { p with troops := growthStep (capacityOf g p) p.troops }

/-- The growth phase of `Game.update` (`src/server.js:253-266`): the rule is
applied to every entry of `this.players`, with no exemption.  (Each loop
iteration reads only global cells and the player it rewrites, so the
sequential JS loop equals this pointwise map.) -/
def updateGrowth (g : Game) : Game :=
  { g with players := g.players.map (fun kp => (kp.1, growPlayer g kp.2)) }

/-- The claim branch of `Game.botAct` (`src/server.js:278-291`) at one
sampled coordinate: claim the cell when it is land and unowned, setting the
bot's pool to 10.  The sampled coordinates are always in range, so the
in-range case is the only one modelled as succeeding. -/
def botClaim (g : Game) (botId : String) (x y : Int) : Option Game :=
  let idx := idxOf g x y
  match getCell g idx, lookupPlayer g botId with
  | some cell, some bot =>
    if cell.land = true ∧ cell.owner = none then
      some (setPlayer
        (setCell g idx.toNat { cell with owner := some botId, port := false, city := false })
        botId { bot with cells := insert idx.toNat bot.cells, troops := 10 })
    else none
  | _, _ => none

/-- The `Game` constructor: all cells from the land mask, no players. -/
def initGame (mask : List (List Bool)) : Game :=
  { gridW := (mask.headI).length
    gridH := mask.length
    cells := mask.flatMap (fun row => row.map (fun b =>
      { land := b, owner := none, troops := 0, port := false, city := false }))
    players := [] }

end OpenFront

namespace OpenFront

/-! ### Basic lemmas about the state helpers -/

theorem find?_map_keyfix (l : List (String × Player)) (q : String)
    (f : String × Player → String × Player) (hf : ∀ kp, (f kp).1 = kp.1) :
    (l.map f).find? (fun kp => kp.1 == q) =
      (l.find? (fun kp => kp.1 == q)).map f := by
  induction l with
  | nil => rfl
  | cons kp rest ih =>
    by_cases h : kp.1 = q
    · simp [List.find?_cons, hf, h, ih]
    · simp [List.find?_cons, hf, h, ih]

theorem lookupPlayer_setPlayer_self (g : Game) (id : String) (p : Player) :
    lookupPlayer (setPlayer g id p) id = (lookupPlayer g id).map (fun _ => p) := by
  unfold lookupPlayer setPlayer
  rw [find?_map_keyfix]
  · cases hf : g.players.find? (fun kp => kp.1 == id) with
    | none => simp
    | some kp0 =>
      have := List.find?_some hf
      simp only [beq_iff_eq] at this
      simp [hf, this]
  · intro kp; by_cases h : kp.1 = id <;> simp [h]

theorem lookupPlayer_setPlayer_ne (g : Game) (id k : String) (p : Player)
    (hne : k ≠ id) :
    lookupPlayer (setPlayer g id p) k = lookupPlayer g k := by
  unfold lookupPlayer setPlayer
  rw [find?_map_keyfix]
  · cases hf : g.players.find? (fun kp => kp.1 == k) with
    | none => simp
    | some kp0 =>
      have := List.find?_some hf
      simp only [beq_iff_eq] at this
      have : ¬ (kp0.1 = id) := by rw [this]; exact hne
      simp [hf, this]
  · intro kp; by_cases h : kp.1 = id <;> simp [h]

theorem keys_setPlayer (g : Game) (id : String) (p : Player) :
    (setPlayer g id p).players.map Prod.fst = g.players.map Prod.fst := by
  unfold setPlayer
  simp only [List.map_map]
  apply List.map_congr_left
  intro kp _
  by_cases h : kp.1 = id <;> simp [h]

@[simp] theorem cells_setPlayer (g : Game) (id : String) (p : Player) :
    (setPlayer g id p).cells = g.cells := rfl

@[simp] theorem gridW_setPlayer (g : Game) (id : String) (p : Player) :
    (setPlayer g id p).gridW = g.gridW := rfl

@[simp] theorem gridH_setPlayer (g : Game) (id : String) (p : Player) :
    (setPlayer g id p).gridH = g.gridH := rfl

@[simp] theorem players_setCell (g : Game) (i : Nat) (c : Cell) :
    (setCell g i c).players = g.players := rfl

@[simp] theorem gridW_setCell (g : Game) (i : Nat) (c : Cell) :
    (setCell g i c).gridW = g.gridW := rfl

@[simp] theorem gridH_setCell (g : Game) (i : Nat) (c : Cell) :
    (setCell g i c).gridH = g.gridH := rfl

@[simp] theorem lookupPlayer_setCell (g : Game) (i : Nat) (c : Cell) (id : String) :
    lookupPlayer (setCell g i c) id = lookupPlayer g id := rfl

@[simp] theorem length_setCell (g : Game) (i : Nat) (c : Cell) :
    (setCell g i c).cells.length = g.cells.length := by
  unfold setCell; simp

/-- The owner recorded on cell `i` (`none` both for an unowned cell and for
an out-of-range index). -/
def cellOwner (g : Game) (i : Nat) : Option String :=
  match g.cells[i]? with
  | some c => c.owner
  | none => none

theorem cellOwner_setCell_self (g : Game) (i : Nat) (c : Cell)
    (h : i < g.cells.length) : cellOwner (setCell g i c) i = c.owner := by
  unfold cellOwner setCell
  simp [List.getElem?_set_self, h]

theorem cellOwner_setCell_ne (g : Game) (i j : Nat) (c : Cell) (h : j ≠ i) :
    cellOwner (setCell g i c) j = cellOwner g j := by
  unfold cellOwner setCell
  simp only
  rw [List.getElem?_set_ne (fun e => h e.symm)]

theorem getCell_eq_some (g : Game) (idx : Int) (c : Cell)
    (h : getCell g idx = some c) :
    0 ≤ idx ∧ idx.toNat < g.cells.length ∧ g.cells[idx.toNat]? = some c := by
  unfold getCell at h
  by_cases h0 : idx < 0
  · simp [h0] at h
  · simp only [h0, if_false] at h
    refine ⟨le_of_not_lt h0, ?_, h⟩
    exact (List.getElem?_eq_some_iff.mp h).1

theorem cellOwner_of_getCell (g : Game) (idx : Int) (c : Cell)
    (h : getCell g idx = some c) : cellOwner g idx.toNat = c.owner := by
  unfold cellOwner
  rcases getCell_eq_some g idx c h with ⟨-, -, h2⟩
  simp [h2]

theorem lookupPlayer_mem (g : Game) (k : String) (p : Player)
    (h : lookupPlayer g k = some p) : (k, p) ∈ g.players := by
  unfold lookupPlayer at h
  cases hf : g.players.find? (fun kp => kp.1 == k) with
  | none => rw [hf] at h; simp at h
  | some kp0 =>
    rw [hf] at h
    simp only [Option.map] at h
    have hmem := List.mem_of_find?_eq_some hf
    have hkey := List.find?_some hf
    simp only [beq_iff_eq] at hkey
    have : kp0 = (k, p) := by
      cases kp0 with
      | mk a b => simp only at hkey h; injection h with h2; rw [hkey, h2]
    rw [this] at hmem; exact hmem

theorem lookupPlayer_isSome_of_mem (g : Game) (k : String) (p : Player)
    (h : (k, p) ∈ g.players) : (lookupPlayer g k).isSome = true := by
  unfold lookupPlayer
  cases hf : g.players.find? (fun kp => kp.1 == k) with
  | none =>
    rw [List.find?_eq_none] at hf
    exact absurd (by simp : ((k, p).1 == k) = true) (hf _ h)
  | some kp0 => simp

theorem find?_of_mem_nodup (l : List (String × Player)) (k : String) (p : Player)
    (hnd : (l.map Prod.fst).Nodup) (h : (k, p) ∈ l) :
    (l.find? (fun kp => kp.1 == k)).map Prod.snd = some p := by
  induction l with
  | nil => simp at h
  | cons kp rest ih =>
    simp only [List.map_cons, List.nodup_cons] at hnd
    rcases List.mem_cons.mp h with h1 | h1
    · rw [← h1]
      rw [List.find?_cons_of_pos _ (by simp)]
      rfl
    · have hk : ¬ (kp.1 = k) := by
        intro he
        exact hnd.1 (he ▸ (List.mem_map.mpr ⟨(k, p), h1, rfl⟩))
      rw [List.find?_cons_of_neg _ (by simp [hk])]
      exact ih hnd.2 h1

theorem lookupPlayer_of_mem (g : Game) (k : String) (p : Player)
    (hnd : (g.players.map Prod.fst).Nodup) (h : (k, p) ∈ g.players) :
    lookupPlayer g k = some p :=
  find?_of_mem_nodup g.players k p hnd h

theorem lookupPlayer_eq_none_iff (g : Game) (k : String) :
    lookupPlayer g k = none ↔ ∀ p, (k, p) ∉ g.players := by
  constructor
  · intro h p hmem
    have := lookupPlayer_isSome_of_mem g k p hmem
    rw [h] at this; simp at this
  · intro h
    unfold lookupPlayer
    cases hf : g.players.find? (fun kp => kp.1 == k) with
    | none => rfl
    | some kp0 =>
      have hmem := List.mem_of_find?_eq_some hf
      have hkey := List.find?_some hf
      simp only [beq_iff_eq] at hkey
      cases kp0 with
      | mk a b =>
        simp only at hkey
        rw [hkey] at hmem
        exact absurd hmem (h b)

end OpenFront

namespace OpenFront

/-! ### Invariants and the reachability relation -/

/-- Keys of the player table are pairwise distinct (ids handed out by
`/api/join` and `ensureBots` are fresh random strings). -/
def KeysNodup (g : Game) : Prop := (g.players.map Prod.fst).Nodup

/-- Every owner id recorded on a cell belongs to a live player. -/
def ownerLive (g : Game) (i : Nat) : Bool :=
  match cellOwner g i with
  | none => true
  | some k => (lookupPlayer g k).isSome

/-- No cell is owned by a dead id. -/
def GhostFree (g : Game) : Prop := ∀ i < g.cells.length, ownerLive g i = true

/-- A player's `cells` set is exactly the set of indices whose cell records
it as owner (keyed by table key). -/
def TerrInv (g : Game) : Prop :=
  ∀ kp ∈ g.players,
    (∀ i ∈ kp.2.cells, cellOwner g i = some kp.1) ∧
    (∀ i < g.cells.length, cellOwner g i = some kp.1 → i ∈ kp.2.cells)

/-- Each table entry stores its own key in its `id` field. -/
def IdMatch (g : Game) : Prop := ∀ kp ∈ g.players, kp.2.id = kp.1

/-- The well-formedness bundle carried through the reachability induction. -/
def WF (g : Game) : Prop := KeysNodup g ∧ GhostFree g ∧ TerrInv g ∧ IdMatch g

/-- The spec sentence for claim C7, phrased on the player records: each
player's territory set contains exactly the indices of cells whose owner
equals that player's id. -/
def TerritoryExact (g : Game) : Prop :=
  ∀ kp ∈ g.players,
    (∀ i ∈ kp.2.cells, cellOwner g i = some kp.2.id) ∧
    (∀ i < g.cells.length, cellOwner g i = some kp.2.id → i ∈ kp.2.cells)

theorem territoryExact_of_WF (g : Game) (h : WF g) : TerritoryExact g := by
  intro kp hmem
  have hid := h.2.2.2 kp hmem
  have ht := h.2.2.1 kp hmem
  rw [hid]
  exact ht

/-- One engine step: a command from the external interface (§6 of the spec)
executed with some arguments, a growth tick, or one bot claim.  Commands
that return normally (no `TypeError`) yield the new state; `join` ids are
fresh, as generated by the server. -/
inductive Step : Game → Game → Prop where
  | join (g : Game) (id name : String) (b : Bool) (g' : Game) :
      lookupPlayer g id = none → addPlayer g id name = (b, g') → Step g g'
  | leave (g : Game) (id : String) : Step g (removePlayer g id)
  | doSpawn (g : Game) (id : String) (x y : Int) (b : Bool) (g' : Game) :
      spawn g id x y = some (b, g') → Step g g'
  | doAttack (g : Game) (id : String) (sx sy dx dy : Int) (q : ℚ) (b : Bool) (g' : Game) :
      attack g id sx sy dx dy q = some (b, g') → Step g g'
  | doExpand (g : Game) (id : String) (x y : Int) (q : ℚ) (b : Bool) (g' : Game) :
      expand g id x y q = some (b, g') → Step g g'
  | doBuildPort (g : Game) (id : String) (x y : Int) :
      Step g (buildPort g id x y).2
  | doBuildCity (g : Game) (id : String) (x y : Int) :
      Step g (buildCity g id x y).2
  | tick (g : Game) : Step g (updateGrowth g)
  | botSpawn (g : Game) (id : String) (x y : Int) (g' : Game) :
      botClaim g id x y = some g' → Step g g'

/-- States reachable by any sequence of engine steps. -/
def Reachable (g g' : Game) : Prop := Relation.ReflTransGen Step g g'

end OpenFront

namespace OpenFront

/-! ### Growth arithmetic (claims C3 and C9) -/

theorem growthStep_le_cap (cap t : Int) : growthStep cap t ≤ cap :=
  min_le_right _ _

theorem capacityOf_ge_five (g : Game) (p : Player) : 5 ≤ capacityOf g p := by
  unfold capacityOf
  have h1 : (0 : Int) ≤ ((p.cells.card / 2 : Nat) : Int) := Int.ofNat_nonneg _
  have h2 : (0 : Int) ≤ ((cityCountOf g p : Nat) : Int) := Int.ofNat_nonneg _
  omega

theorem iterate_growthStep_eq (cap : Int) :
    ∀ (m : Nat) (t : Int), 0 ≤ t → t ≤ cap → cap ≤ t + m →
      (growthStep cap)^[m] t = cap := by
  intro m
  induction m with
  | zero =>
    intro t h0 h1 h2
    simp only [Function.iterate_zero, id_eq]
    omega
  | succ m ih =>
    intro t h0 h1 h2
    rw [Function.iterate_succ_apply]
    have hg : 1 ≤ max 1 (t.fdiv 3) := le_max_left _ _
    by_cases hc : cap ≤ t + max 1 (t.fdiv 3)
    · have hstep : growthStep cap t = cap := min_eq_right hc
      rw [hstep]
      exact ih cap (by omega) le_rfl (by omega)
    · have hlt := lt_of_not_le hc
      have hstep : growthStep cap t = t + max 1 (t.fdiv 3) := min_eq_left (le_of_lt hlt)
      rw [hstep]
      refine ih _ (by omega) (le_of_lt hlt) ?_
      have : (m.succ : Int) = (m : Int) + 1 := by push_cast; ring
      omega

theorem growPlayer_troops (g : Game) (p : Player) :
    (growPlayer g p).troops = growthStep (capacityOf g p) p.troops := rfl

/-- C9: with territory size and city count fixed (hence a fixed capacity
`5 + ⌊territorySize/2⌋ + 5·cityCount`), iterating the tick growth rule from
any nonnegative pool never exceeds the capacity (at every point produced by
the iteration) and reaches exactly the capacity after finitely many steps,
staying there. -/
theorem C9_growth_convergence (g : Game) (p : Player) (t0 : Int) (h0 : 0 ≤ t0) :
    (∀ n : Nat, 1 ≤ n → (growthStep (capacityOf g p))^[n] t0 ≤ capacityOf g p) ∧
    (∃ N : Nat, ∀ n : Nat, N ≤ n →
      (growthStep (capacityOf g p))^[n] t0 = capacityOf g p) := by
  have hcap : 5 ≤ capacityOf g p := capacityOf_ge_five g p
  constructor
  · intro n hn
    obtain ⟨m, rfl⟩ : ∃ m, n = m + 1 := ⟨n - 1, by omega⟩
    rw [Function.iterate_succ_apply']
    exact growthStep_le_cap _ _
  · refine ⟨(capacityOf g p).toNat + 1, ?_⟩
    intro n hn
    obtain ⟨k, rfl⟩ : ∃ k, n = k + 1 := ⟨n - 1, by omega⟩
    rw [Function.iterate_succ_apply]
    have hg : 1 ≤ max 1 (t0.fdiv 3) := le_max_left _ _
    have ht1a : 0 ≤ growthStep (capacityOf g p) t0 := by
      unfold growthStep
      have := le_min (show (0:ℤ) ≤ t0 + max 1 (t0.fdiv 3) by omega)
        (show (0:ℤ) ≤ capacityOf g p by omega)
      simpa using this
    have ht1b : growthStep (capacityOf g p) t0 ≤ capacityOf g p := growthStep_le_cap _ _
    refine iterate_growthStep_eq _ k _ ht1a ht1b ?_
    have hk : (capacityOf g p).toNat ≤ k := by omega
    have : capacityOf g p ≤ (k : Int) := by
      calc capacityOf g p ≤ ((capacityOf g p).toNat : Int) := Int.self_le_toNat _
        _ ≤ (k : Int) := by exact_mod_cast hk
    omega

/-- Demonstration fixtures used by witnesses: a 1×1 land world and players. -/
def demoG : Game := initGame [[true]]

def demoP : Player := { id := "a", name := "a", troops := 0, cells := ∅ }

/-- Witness for C9 at the concrete capacity of a fresh player in a 1×1 world. -/
theorem C9_witness :
    (∀ n : Nat, 1 ≤ n →
      (growthStep (capacityOf demoG demoP))^[n] 0 ≤ capacityOf demoG demoP) ∧
    (∃ N : Nat, ∀ n : Nat, N ≤ n →
      (growthStep (capacityOf demoG demoP))^[n] 0 = capacityOf demoG demoP) :=
  C9_growth_convergence demoG demoP 0 le_rfl

end OpenFront

namespace OpenFront

theorem lookupPlayer_updateGrowth (g : Game) (k : String) :
    lookupPlayer (updateGrowth g) k = (lookupPlayer g k).map (growPlayer g) := by
  have h := find?_map_keyfix g.players k (fun kp => (kp.1, growPlayer g kp.2)) (fun kp => rfl)
  show (List.find? (fun kp => kp.1 == k)
      (g.players.map (fun kp => (kp.1, growPlayer g kp.2)))).map Prod.snd =
    ((g.players.find? (fun kp => kp.1 == k)).map Prod.snd).map (growPlayer g)
  rw [h]
  cases g.players.find? (fun kp => kp.1 == k) <;> rfl

/-- C3, as amended: the growth step rewrites EVERY player's pool to
`min(pool + max(1, ⌊pool/3⌋), 5 + ⌊territory/2⌋ + 5·cities)` — including a
player with zero territory and zero pool, whose pool therefore becomes
`min(0 + 1, 5) = 1` instead of staying 0. -/
theorem C3_amended (g : Game) (k : String) (p : Player)
    (h : lookupPlayer g k = some p) :
    lookupPlayer (updateGrowth g) k =
      some { p with troops :=
        (min (p.troops + max 1 (p.troops.fdiv 3))
          (5 + ((p.cells.card / 2 : Nat) : Int) + ((cityCountOf g p : Nat) : Int) * 5)) } := by
  rw [lookupPlayer_updateGrowth, h]
  rfl

/-- World with a single just-joined player `z` (no territory, empty pool). -/
def c3p : Player := { id := "z", name := "z", troops := 0, cells := ∅ }

def c3g : Game :=
  { gridW := 1, gridH := 1
    cells := [{ land := true, owner := none, troops := 0, port := false, city := false }]
    players := [("z", c3p)] }

/-- Counterexample to C3 as stated: a player with zero territory and zero
pool is NOT left unchanged by the growth step — its pool becomes 1. -/
theorem C3_counterexample :
    lookupPlayer c3g "z" = some c3p ∧ c3p.troops = 0 ∧ c3p.cells = ∅ ∧
    lookupPlayer (updateGrowth c3g) "z" = some { c3p with troops := 1 } := by
  refine ⟨rfl, rfl, rfl, ?_⟩
  decide

/-- Witness instantiating `C3_amended` on a concrete world. -/
theorem C3_witness :
    lookupPlayer (updateGrowth c3g) "z" =
      some { c3p with troops :=
        (min (c3p.troops + max 1 (c3p.troops.fdiv 3))
          (5 + ((c3p.cells.card / 2 : Nat) : Int) + ((cityCountOf c3g c3p : Nat) : Int) * 5)) } :=
  C3_amended c3g "z" c3p (by decide)

end OpenFront

namespace OpenFront

/-! ### Case analysis of `attack` (claims C1, C2, C4, C10) -/

theorem attack_nogeom (g : Game) (id : String) (player : Player)
    (srcX srcY dstX dstY : Int) (percent : ℚ) (srcCell : Cell)
    (hpl : lookupPlayer g id = some player)
    (hsrc : getCell g (idxOf g srcX srcY) = some srcCell)
    (howner : srcCell.owner = some id)
    (hgeom : geomOk g srcCell srcX srcY dstX dstY = false) :
    attack g id srcX srcY dstX dstY percent = some (false, g) := by
  unfold attack
  dsimp only
  rw [hpl, hsrc]
  simp only
  rw [if_neg (by simp [howner]), if_pos hgeom]

theorem attack_own_dest (g : Game) (id : String) (player : Player)
    (srcX srcY dstX dstY : Int) (percent : ℚ) (srcCell dstCell : Cell)
    (hpl : lookupPlayer g id = some player)
    (hsrc : getCell g (idxOf g srcX srcY) = some srcCell)
    (howner : srcCell.owner = some id)
    (hgeom : geomOk g srcCell srcX srcY dstX dstY = true)
    (hsend : 1 ≤ toSendOf player.troops percent)
    (hdst : getCell g (idxOf g dstX dstY) = some dstCell)
    (hdowner : dstCell.owner = some id) :
    attack g id srcX srcY dstX dstY percent =
      some (false, setPlayer g id
        { player with troops := player.troops - toSendOf player.troops percent }) := by
  unfold attack
  dsimp only
  rw [hpl, hsrc]
  simp only
  rw [if_neg (by simp [howner]), if_neg (by simp [hgeom]), if_neg (by omega)]
  rw [hdst]
  simp only
  rw [hdowner]
  simp

theorem attack_capture (g : Game) (id : String) (player : Player)
    (srcX srcY dstX dstY : Int) (percent : ℚ) (srcCell dstCell : Cell)
    (hpl : lookupPlayer g id = some player)
    (hsrc : getCell g (idxOf g srcX srcY) = some srcCell)
    (howner : srcCell.owner = some id)
    (hgeom : geomOk g srcCell srcX srcY dstX dstY = true)
    (hsend : 1 ≤ toSendOf player.troops percent)
    (hdst : getCell g (idxOf g dstX dstY) = some dstCell)
    (hdowner : dstCell.owner = none) :
    attack g id srcX srcY dstX dstY percent =
      some (true,
        setPlayer
          (setCell (setPlayer g id
              { player with troops := player.troops - toSendOf player.troops percent })
            (idxOf g dstX dstY).toNat
            { dstCell with owner := some id, port := false, city := false })
          id
          { player with
            troops := player.troops - toSendOf player.troops percent
            cells := insert (idxOf g dstX dstY).toNat player.cells }) := by
  unfold attack
  dsimp only
  rw [hpl, hsrc]
  simp only
  rw [if_neg (by simp [howner]), if_neg (by simp [hgeom]), if_neg (by omega)]
  rw [hdst]
  simp only
  rw [hdowner]

theorem attack_win (g : Game) (id d : String) (player defender : Player)
    (srcX srcY dstX dstY : Int) (percent : ℚ) (srcCell dstCell : Cell)
    (hpl : lookupPlayer g id = some player)
    (hsrc : getCell g (idxOf g srcX srcY) = some srcCell)
    (howner : srcCell.owner = some id)
    (hgeom : geomOk g srcCell srcX srcY dstX dstY = true)
    (hsend : 1 ≤ toSendOf player.troops percent)
    (hdst : getCell g (idxOf g dstX dstY) = some dstCell)
    (hdowner : dstCell.owner = some d)
    (hne : d ≠ id)
    (hdef : lookupPlayer g d = some defender)
    (hwin : defender.troops < toSendOf player.troops percent) :
    attack g id srcX srcY dstX dstY percent =
      some (true,
        setPlayer
          (setCell
            (setPlayer (setPlayer g id
                { player with troops := player.troops - toSendOf player.troops percent })
              d
              { defender with
                troops := 0
                cells := defender.cells.erase (idxOf g dstX dstY).toNat })
            (idxOf g dstX dstY).toNat
            { dstCell with owner := some id, port := false, city := false })
          id
          { player with
            troops := player.troops - toSendOf player.troops percent
            cells := insert (idxOf g dstX dstY).toNat player.cells }) := by
  unfold attack
  dsimp only
  rw [hpl, hsrc]
  simp only
  rw [if_neg (by simp [howner]), if_neg (by simp [hgeom]), if_neg (by omega)]
  rw [hdst]
  simp only
  rw [hdowner]
  simp only
  rw [if_neg hne, lookupPlayer_setPlayer_ne _ _ _ _ hne, hdef]
  simp only
  rw [if_pos hwin]

theorem attack_reduce (g : Game) (id d : String) (player defender : Player)
    (srcX srcY dstX dstY : Int) (percent : ℚ) (srcCell dstCell : Cell)
    (hpl : lookupPlayer g id = some player)
    (hsrc : getCell g (idxOf g srcX srcY) = some srcCell)
    (howner : srcCell.owner = some id)
    (hgeom : geomOk g srcCell srcX srcY dstX dstY = true)
    (hsend : 1 ≤ toSendOf player.troops percent)
    (hdst : getCell g (idxOf g dstX dstY) = some dstCell)
    (hdowner : dstCell.owner = some d)
    (hne : d ≠ id)
    (hdef : lookupPlayer g d = some defender)
    (hlose : toSendOf player.troops percent ≤ defender.troops) :
    attack g id srcX srcY dstX dstY percent =
      some (true,
        setPlayer (setPlayer g id
            { player with troops := player.troops - toSendOf player.troops percent })
          d
          { defender with troops := defender.troops - toSendOf player.troops percent }) := by
  unfold attack
  dsimp only
  rw [hpl, hsrc]
  simp only
  rw [if_neg (by simp [howner]), if_neg (by simp [hgeom]), if_neg (by omega)]
  rw [hdst]
  simp only
  rw [hdowner]
  simp only
  rw [if_neg hne, lookupPlayer_setPlayer_ne _ _ _ _ hne, hdef]
  simp only
  rw [if_neg (by omega)]

end OpenFront

namespace OpenFront

/-! ### Fixtures for concrete counterexamples and witnesses -/

def landCell : Cell := { land := true, owner := none, troops := 0, port := false, city := false }

def waterCell : Cell := { land := false, owner := none, troops := 0, port := false, city := false }

def ownedCell (k : String) : Cell :=
  { land := true, owner := some k, troops := 0, port := false, city := false }

/-- 2×1 all-land world in which `a` owns both cells and has pool 10. -/
def c1p : Player := { id := "a", name := "a", troops := 10, cells := {0, 1} }

def c1g : Game :=
  { gridW := 2, gridH := 1, cells := [ownedCell "a", ownedCell "a"],
    players := [("a", c1p)] }

def c1after : Game := { c1g with players := [("a", { c1p with troops := 0 })] }

/-- Counterexample to C1 as stated: attacking one's own cell with
`fraction = 1` returns failure, but the pool debit of
`floor(10·1) = 10` IS applied — the pool drops from 10 to 0. -/
theorem C1_counterexample :
    attack c1g "a" 0 0 1 0 1 = some (false, c1after) ∧ c1p.troops = 10 := by
  constructor
  · with_unfolding_all decide
  · rfl

theorem lookupPlayer_setPlayer_ne_keep (g : Game) (id : String) (p : Player) :
    ∀ k, k ≠ id → lookupPlayer (setPlayer g id p) k = lookupPlayer g k :=
  fun k hk => lookupPlayer_setPlayer_ne g id k p hk

/-- C1, as amended: a geometry-valid own-destination attack with
`sent = floor(pool·fraction) ≥ 1` returns failure, but the troop debit IS
applied before the ownership check: the attacker's pool drops by exactly
`sent`; no cell and no other player changes. -/
theorem C1_amended (g : Game) (id : String) (player : Player)
    (srcX srcY dstX dstY : Int) (percent : ℚ) (srcCell dstCell : Cell)
    (hpl : lookupPlayer g id = some player)
    (hsrc : getCell g (idxOf g srcX srcY) = some srcCell)
    (howner : srcCell.owner = some id)
    (hgeom : geomOk g srcCell srcX srcY dstX dstY = true)
    (hsend : 1 ≤ toSendOf player.troops percent)
    (hdst : getCell g (idxOf g dstX dstY) = some dstCell)
    (hdowner : dstCell.owner = some id) :
    ∃ g', attack g id srcX srcY dstX dstY percent = some (false, g') ∧
      lookupPlayer g' id =
        some { player with troops := player.troops - toSendOf player.troops percent } ∧
      (∀ k, k ≠ id → lookupPlayer g' k = lookupPlayer g k) ∧
      g'.cells = g.cells := by
  refine ⟨_, attack_own_dest g id player srcX srcY dstX dstY percent srcCell dstCell
    hpl hsrc howner hgeom hsend hdst hdowner, ?_, ?_, rfl⟩
  · rw [lookupPlayer_setPlayer_self, hpl]; rfl
  · exact lookupPlayer_setPlayer_ne_keep g id _

/-- Witness for `C1_amended` on the 2×1 fixture with `fraction = 1`. -/
theorem C1_witness :
    ∃ g', attack c1g "a" 0 0 1 0 1 = some (false, g') ∧
      lookupPlayer g' "a" =
        some { c1p with troops := c1p.troops - toSendOf c1p.troops 1 } ∧
      (∀ k, k ≠ "a" → lookupPlayer g' k = lookupPlayer c1g k) ∧
      g'.cells = c1g.cells :=
  C1_amended c1g "a" c1p 0 0 1 0 1 (ownedCell "a") (ownedCell "a")
    (by decide) (by decide) (by decide) (by decide)
    (by with_unfolding_all decide) (by decide) (by decide)

/-- 3×2 world: `a` owns `(0,0)` which has a port; `(1,1)` is water; `(2,1)`
is land and unowned.  The offset from `(0,0)` to `(2,1)` is the knight-like
`(2,1)` — Chebyshev distance 2 but neither straight nor diagonal. -/
def c4src : Cell := { land := true, owner := some "a", troops := 0, port := true, city := false }

def c4p : Player := { id := "a", name := "a", troops := 10, cells := {0} }

def c4g : Game :=
  { gridW := 3, gridH := 2,
    cells := [c4src, landCell, landCell, landCell, waterCell, landCell],
    players := [("a", c4p)] }

def c4after : Game :=
  { c4g with
    cells := [c4src, landCell, landCell, landCell, waterCell,
      { landCell with owner := some "a" }],
    players := [("a", { c4p with troops := 0, cells := {5, 0} })] }

/-- Counterexample to C4 as stated: the port jump at offset `(2, 1)` — not a
straight or diagonal line — SUCCEEDS and mutates the state (the code only
checks `max(|dx|,|dy|) = 2`, not the offset shape). -/
theorem C4_counterexample :
    attack c4g "a" 0 0 2 1 1 = some (true, c4after) ∧ c4after ≠ c4g ∧
    ((2 : Int) - 0).natAbs = 2 ∧ ((1 : Int) - 0).natAbs = 1 := by
  refine ⟨?_, by decide, rfl, rfl⟩
  with_unfolding_all decide

/-- C4, as amended: the move is accepted iff the destination is at Chebyshev
distance 1, or at Chebyshev distance exactly 2 with ANY offset shape
(knight-like `(2,1)` included) where the source has a port, the cell one
signed step towards the target is water, and the destination is land; when
the test fails the attack returns failure with no state change. -/
theorem C4_amended (g : Game) (srcCell : Cell) (srcX srcY dstX dstY : Int) :
    (geomOk g srcCell srcX srcY dstX dstY = true ↔
      (max (dstX - srcX).natAbs (dstY - srcY).natAbs = 1 ∨
       (max (dstX - srcX).natAbs (dstY - srcY).natAbs = 2 ∧ srcCell.port = true ∧
        (∃ midCell dstCell,
          getCell g (idxOf g (srcX + (dstX - srcX).sign) (srcY + (dstY - srcY).sign)) =
            some midCell ∧
          getCell g (idxOf g dstX dstY) = some dstCell ∧
          midCell.land = false ∧ dstCell.land = true)))) ∧
    (∀ (id : String) (player : Player) (percent : ℚ),
      lookupPlayer g id = some player →
      getCell g (idxOf g srcX srcY) = some srcCell →
      srcCell.owner = some id →
      geomOk g srcCell srcX srcY dstX dstY = false →
      attack g id srcX srcY dstX dstY percent = some (false, g)) := by
  constructor
  · unfold geomOk
    dsimp only
    by_cases h1 : max (dstX - srcX).natAbs (dstY - srcY).natAbs = 1
    · simp [h1]
    · rw [if_neg h1]
      by_cases h2 : max (dstX - srcX).natAbs (dstY - srcY).natAbs = 2 ∧ srcCell.port = true
      · rw [if_pos h2]
        cases hm : getCell g (idxOf g (srcX + (dstX - srcX).sign) (srcY + (dstY - srcY).sign)) with
        | none => simp [h1, h2]
        | some mc =>
          cases hd : getCell g (idxOf g dstX dstY) with
          | none => simp [h1, h2]
          | some dc => simp [h1, h2]
      · rw [if_neg h2]
        constructor
        · intro hf; exact Bool.noConfusion hf
        · rintro (hc | hc)
          · exact absurd hc h1
          · exact absurd ⟨hc.1, hc.2.1⟩ h2
  · intro id player percent hpl hsrc howner hgeom
    exact attack_nogeom g id player srcX srcY dstX dstY percent srcCell hpl hsrc howner hgeom

/-- Witness for `C4_amended`: a Chebyshev-distance-2 move from a portless
cell fails with no state change. -/
theorem C4_witness :
    attack c1g "a" 0 0 2 0 (1/2) = some (false, c1g) :=
  (C4_amended c1g (ownedCell "a") 0 0 2 0).2 "a" c1p (1/2)
    (by decide) (by decide) (by decide) (by decide)

end OpenFront

namespace OpenFront

@[simp] theorem cellOwner_setPlayer (g : Game) (id : String) (p : Player) (i : Nat) :
    cellOwner (setPlayer g id p) i = cellOwner g i := rfl

theorem getCell_setPlayer (g : Game) (id : String) (p : Player) (idx : Int) :
    getCell (setPlayer g id p) idx = getCell g idx := rfl

theorem geomOk_of_adjacent (g : Game) (srcCell : Cell) (srcX srcY dstX dstY : Int)
    (hadj : max (dstX - srcX).natAbs (dstY - srcY).natAbs = 1) :
    geomOk g srcCell srcX srcY dstX dstY = true := by
  unfold geomOk
  dsimp only
  rw [if_pos hadj]

/-- C10: on a Chebyshev-distance-1 attack the destination's `land` flag is
never consulted — an unowned adjacent WATER cell is captured outright (owner
set, cell added to the attacker's territory) — while `spawn` refuses the
very same water cell. -/
theorem C10_water_capture (g : Game) (id : String) (player : Player)
    (srcX srcY dstX dstY : Int) (percent : ℚ) (srcCell dstCell : Cell)
    (hpl : lookupPlayer g id = some player)
    (hsrc : getCell g (idxOf g srcX srcY) = some srcCell)
    (howner : srcCell.owner = some id)
    (hadj : max (dstX - srcX).natAbs (dstY - srcY).natAbs = 1)
    (hdst : getCell g (idxOf g dstX dstY) = some dstCell)
    (hwater : dstCell.land = false)
    (hdowner : dstCell.owner = none)
    (hsend : 1 ≤ toSendOf player.troops percent) :
    (∃ g', attack g id srcX srcY dstX dstY percent = some (true, g') ∧
      cellOwner g' (idxOf g dstX dstY).toNat = some id ∧
      (∃ q, lookupPlayer g' id = some q ∧ (idxOf g dstX dstY).toNat ∈ q.cells)) ∧
    (∀ sid : String, spawn g sid dstX dstY = some (false, g)) := by
  have hgeom := geomOk_of_adjacent g srcCell srcX srcY dstX dstY hadj
  rcases getCell_eq_some g (idxOf g dstX dstY) dstCell hdst with ⟨-, hlt, -⟩
  constructor
  · refine ⟨_, attack_capture g id player srcX srcY dstX dstY percent srcCell dstCell
      hpl hsrc howner hgeom hsend hdst hdowner, ?_, ?_⟩
    · rw [cellOwner_setPlayer, cellOwner_setCell_self]
      simpa using hlt
    · refine ⟨{ player with
          troops := player.troops - toSendOf player.troops percent
          cells := insert (idxOf g dstX dstY).toNat player.cells }, ?_,
        Finset.mem_insert_self _ _⟩
      rw [lookupPlayer_setPlayer_self]
      show (lookupPlayer (setPlayer g id _) id).map _ = _
      rw [lookupPlayer_setPlayer_self, hpl]
      rfl
  · intro sid
    unfold spawn
    dsimp only
    rw [hdst]
    simp only
    rw [if_pos (Or.inl hwater)]

/-- 2×1 world for C10: `a` owns the land cell `(0,0)`; `(1,0)` is water. -/
def c10p : Player := { id := "a", name := "a", troops := 10, cells := {0} }

def c10g : Game :=
  { gridW := 2, gridH := 1, cells := [ownedCell "a", waterCell],
    players := [("a", c10p)] }

/-- Witness for `C10_water_capture` on the 2×1 land/water fixture. -/
theorem C10_witness :
    (∃ g', attack c10g "a" 0 0 1 0 1 = some (true, g') ∧
      cellOwner g' (idxOf c10g 1 0).toNat = some "a" ∧
      (∃ q, lookupPlayer g' "a" = some q ∧ (idxOf c10g 1 0).toNat ∈ q.cells)) ∧
    (∀ sid : String, spawn c10g sid 1 0 = some (false, c10g)) :=
  C10_water_capture c10g "a" c10p 0 0 1 0 1 (ownedCell "a") waterCell
    (by decide) (by decide) (by decide) (by decide) (by decide) (by decide)
    (by decide) (by with_unfolding_all decide)

/-- C2: resolution of an attack against a live defender `d ≠ p` with
`sent = floor(pool·fraction) ≥ 1`.  If `sent > defenderPool` the defender's
pool is zeroed, the destination leaves the defender's territory and joins
the attacker's with `port`/`city` reset, and the attacker pays the full
`sent` (no surplus refund).  If `sent ≤ defenderPool` (ties included) the
defender merely loses `sent` troops and ownership is unchanged. -/
theorem C2_battle_resolution (g : Game) (id d : String) (player defender : Player)
    (srcX srcY dstX dstY : Int) (percent : ℚ) (srcCell dstCell : Cell)
    (hpl : lookupPlayer g id = some player)
    (hsrc : getCell g (idxOf g srcX srcY) = some srcCell)
    (howner : srcCell.owner = some id)
    (hgeom : geomOk g srcCell srcX srcY dstX dstY = true)
    (hsend : 1 ≤ toSendOf player.troops percent)
    (hdst : getCell g (idxOf g dstX dstY) = some dstCell)
    (hdowner : dstCell.owner = some d)
    (hne : d ≠ id)
    (hdef : lookupPlayer g d = some defender) :
    (defender.troops < toSendOf player.troops percent →
      ∃ g', attack g id srcX srcY dstX dstY percent = some (true, g') ∧
        (∃ q, lookupPlayer g' d = some q ∧ q.troops = 0 ∧
          (idxOf g dstX dstY).toNat ∉ q.cells) ∧
        (∃ q, lookupPlayer g' id = some q ∧
          q.troops = player.troops - toSendOf player.troops percent ∧
          (idxOf g dstX dstY).toNat ∈ q.cells) ∧
        getCell g' (idxOf g dstX dstY) =
          some { dstCell with owner := some id, port := false, city := false }) ∧
    (toSendOf player.troops percent ≤ defender.troops →
      ∃ g', attack g id srcX srcY dstX dstY percent = some (true, g') ∧
        (∃ q, lookupPlayer g' d = some q ∧
          q.troops = defender.troops - toSendOf player.troops percent ∧
          q.cells = defender.cells) ∧
        (∃ q, lookupPlayer g' id = some q ∧
          q.troops = player.troops - toSendOf player.troops percent) ∧
        cellOwner g' (idxOf g dstX dstY).toNat = some d ∧
        g'.cells = g.cells) := by
  rcases getCell_eq_some g (idxOf g dstX dstY) dstCell hdst with ⟨hnn, hlt, -⟩
  constructor
  · intro hwin
    refine ⟨_, attack_win g id d player defender srcX srcY dstX dstY percent srcCell dstCell
      hpl hsrc howner hgeom hsend hdst hdowner hne hdef hwin, ?_, ?_, ?_⟩
    · refine ⟨{ defender with
          troops := 0
          cells := defender.cells.erase (idxOf g dstX dstY).toNat }, ?_, rfl,
        Finset.not_mem_erase _ _⟩
      rw [lookupPlayer_setPlayer_ne _ _ _ _ hne]
      show (lookupPlayer (setPlayer (setPlayer g id _) d _) d) = _
      rw [lookupPlayer_setPlayer_self, lookupPlayer_setPlayer_ne _ _ _ _ hne, hdef]
      rfl
    · refine ⟨{ player with
          troops := player.troops - toSendOf player.troops percent
          cells := insert (idxOf g dstX dstY).toNat player.cells }, ?_, rfl,
        Finset.mem_insert_self _ _⟩
      rw [lookupPlayer_setPlayer_self]
      show (lookupPlayer (setPlayer (setPlayer g id _) d _) id).map _ = _
      rw [lookupPlayer_setPlayer_ne _ _ _ _ (Ne.symm hne), lookupPlayer_setPlayer_self, hpl]
      rfl
    · show getCell (setCell _ (idxOf g dstX dstY).toNat _) (idxOf g dstX dstY) = _
      unfold getCell setCell
      rw [if_neg (by omega)]
      simp only
      rw [List.getElem?_set_self (by simpa using hlt)]
  · intro hlose
    refine ⟨_, attack_reduce g id d player defender srcX srcY dstX dstY percent srcCell dstCell
      hpl hsrc howner hgeom hsend hdst hdowner hne hdef hlose, ?_, ?_, ?_, rfl⟩
    · refine ⟨{ defender with
          troops := defender.troops - toSendOf player.troops percent }, ?_, rfl, rfl⟩
      rw [lookupPlayer_setPlayer_self, lookupPlayer_setPlayer_ne _ _ _ _ hne, hdef]
      rfl
    · refine ⟨{ player with
          troops := player.troops - toSendOf player.troops percent }, ?_, rfl⟩
      rw [lookupPlayer_setPlayer_ne _ _ _ _ (Ne.symm hne), lookupPlayer_setPlayer_self, hpl]
      rfl
    · show cellOwner g (idxOf g dstX dstY).toNat = some d
      rw [cellOwner_of_getCell g _ _ hdst, hdowner]

/-- 2×1 world for C2: `a` owns `(0,0)` with pool 10, `b` owns `(1,0)`. -/
def c2pa : Player := { id := "a", name := "a", troops := 10, cells := {0} }

def c2pb (t : Int) : Player := { id := "b", name := "b", troops := t, cells := {1} }

def c2g (t : Int) : Game :=
  { gridW := 2, gridH := 1, cells := [ownedCell "a", ownedCell "b"],
    players := [("a", c2pa), ("b", c2pb t)] }

/-- Witness for `C2_battle_resolution`: the win branch against a defender
with pool 3 and the tie branch against a defender with pool 10
(`sent = 10` in both cases). -/
theorem C2_witness :
    (∃ g', attack (c2g 3) "a" 0 0 1 0 1 = some (true, g') ∧
        (∃ q, lookupPlayer g' "b" = some q ∧ q.troops = 0 ∧
          (idxOf (c2g 3) 1 0).toNat ∉ q.cells) ∧
        (∃ q, lookupPlayer g' "a" = some q ∧
          q.troops = c2pa.troops - toSendOf c2pa.troops 1 ∧
          (idxOf (c2g 3) 1 0).toNat ∈ q.cells) ∧
        getCell g' (idxOf (c2g 3) 1 0) =
          some { ownedCell "b" with owner := some "a", port := false, city := false }) ∧
    (∃ g', attack (c2g 10) "a" 0 0 1 0 1 = some (true, g') ∧
        (∃ q, lookupPlayer g' "b" = some q ∧
          q.troops = (c2pb 10).troops - toSendOf c2pa.troops 1 ∧
          q.cells = (c2pb 10).cells) ∧
        (∃ q, lookupPlayer g' "a" = some q ∧
          q.troops = c2pa.troops - toSendOf c2pa.troops 1) ∧
        cellOwner g' (idxOf (c2g 10) 1 0).toNat = some "b" ∧
        g'.cells = (c2g 10).cells) :=
  ⟨(C2_battle_resolution (c2g 3) "a" "b" c2pa (c2pb 3) 0 0 1 0 1
      (ownedCell "a") (ownedCell "b") (by decide) (by decide) (by decide) (by decide)
      (by with_unfolding_all decide) (by decide) (by decide) (by decide) (by decide)).1
    (by with_unfolding_all decide),
   (C2_battle_resolution (c2g 10) "a" "b" c2pa (c2pb 10) 0 0 1 0 1
      (ownedCell "a") (ownedCell "b") (by decide) (by decide) (by decide) (by decide)
      (by with_unfolding_all decide) (by decide) (by decide) (by decide) (by decide)).2
    (by with_unfolding_all decide)⟩

end OpenFront

namespace OpenFront

/-- 2×2 all-land world with a roster entry `a` that has not spawned yet. -/
def c6p : Player := { id := "a", name := "a", troops := 0, cells := ∅ }

def c6w : Game :=
  { gridW := 2, gridH := 2, cells := [landCell, landCell, landCell, landCell],
    players := [("a", c6p)] }

/-- C6 fails on the code (code bug): coordinates are never bounds-checked.
`spawn` at `x = −1` computes array index −1 and throws a `TypeError`
(`cell.land` of `undefined`, modelled by `none`); a distance-1 `attack`
whose destination index falls off the array throws at `dstCell.owner` —
after the troop debit has already been applied; and out-of-bounds
coordinates whose linear index wraps into range silently mutate a different
cell: `spawn` at `(2,0)` of a 2×2 world succeeds and claims cell `(0,1)`
(index 2).  The spec requires a boolean failure with no state change in all
three situations. -/
theorem C6_code_bug :
    spawn c1g "a" (-1) 0 = none ∧
    attack c1g "a" 0 0 (-1) 0 1 = none ∧
    (spawn c6w "a" 2 0).map Prod.fst = some true ∧
    (spawn c6w "a" 2 0).map (fun r => cellOwner r.2 2) = some (some "a") := by
  refine ⟨by decide, ?_, by decide, by decide⟩
  with_unfolding_all decide

end OpenFront

namespace OpenFront

/-! ### Pool non-negativity (claim C8) -/

/-- No player's pool is negative. -/
def NonnegPools (g : Game) : Prop := ∀ kp ∈ g.players, 0 ≤ kp.2.troops

theorem toSendOf_le (t : Int) (q : ℚ) (ht : 0 ≤ t) (hq1 : q ≤ 1) :
    toSendOf t q ≤ t := by
  unfold toSendOf
  have hmul : (t : ℚ) * q ≤ (t : ℚ) := by
    calc (t : ℚ) * q ≤ (t : ℚ) * 1 :=
          mul_le_mul_of_nonneg_left hq1 (by exact_mod_cast ht)
      _ = (t : ℚ) := mul_one _
  calc ⌊(t : ℚ) * q⌋ ≤ ⌊(t : ℚ)⌋ := Int.floor_le_floor hmul
    _ = t := Int.floor_intCast t

theorem nonneg_setPlayer (g : Game) (id : String) (p' : Player)
    (h : NonnegPools g) (hp : 0 ≤ p'.troops) : NonnegPools (setPlayer g id p') := by
  intro kp hkp
  unfold setPlayer at hkp
  simp only [List.mem_map] at hkp
  obtain ⟨kp0, hkp0, rfl⟩ := hkp
  by_cases hk : kp0.1 = id
  · simp only [hk, beq_self_eq_true, if_pos]
    exact hp
  · simp only [beq_iff_eq, hk, if_false]
    exact h kp0 hkp0

theorem nonneg_setCell (g : Game) (i : Nat) (c : Cell)
    (h : NonnegPools g) : NonnegPools (setCell g i c) := h

theorem attack_nonneg (g : Game) (id : String) (sx sy dx dy : Int) (q : ℚ)
    (b : Bool) (g' : Game) (hq1 : q ≤ 1)
    (h : NonnegPools g) (heq : attack g id sx sy dx dy q = some (b, g')) :
    NonnegPools g' := by
  unfold attack at heq
  dsimp only at heq
  cases hpl : lookupPlayer g id with
  | none =>
    rw [hpl] at heq
    simp only [Option.some.injEq, Prod.mk.injEq] at heq
    obtain ⟨-, hg⟩ := heq; subst hg; exact h
  | some player =>
    rw [hpl] at heq
    have hpt : 0 ≤ player.troops := h _ (lookupPlayer_mem _ _ _ hpl)
    cases hsc : getCell g (idxOf g sx sy) with
    | none =>
      rw [hsc] at heq
      simp only [Option.some.injEq, Prod.mk.injEq] at heq
      obtain ⟨-, hg⟩ := heq; subst hg; exact h
    | some srcCell =>
      rw [hsc] at heq
      simp only at heq
      by_cases ho : srcCell.owner ≠ some id
      · rw [if_pos ho] at heq
        simp only [Option.some.injEq, Prod.mk.injEq] at heq
        obtain ⟨-, hg⟩ := heq; subst hg; exact h
      rw [if_neg ho] at heq
      by_cases hgm : geomOk g srcCell sx sy dx dy = false
      · rw [if_pos hgm] at heq
        simp only [Option.some.injEq, Prod.mk.injEq] at heq
        obtain ⟨-, hg⟩ := heq; subst hg; exact h
      rw [if_neg hgm] at heq
      by_cases hts : toSendOf player.troops q < 1
      · rw [if_pos hts] at heq
        simp only [Option.some.injEq, Prod.mk.injEq] at heq
        obtain ⟨-, hg⟩ := heq; subst hg; exact h
      rw [if_neg hts] at heq
      have htle : toSendOf player.troops q ≤ player.troops := toSendOf_le _ _ hpt hq1
      have hp1 : (0 : Int) ≤ player.troops - toSendOf player.troops q := by omega
      have h1 : NonnegPools (setPlayer g id
          { player with troops := player.troops - toSendOf player.troops q }) :=
        nonneg_setPlayer _ _ _ h hp1
      cases hdc : getCell g (idxOf g dx dy) with
      | none => rw [hdc] at heq; simp at heq
      | some dstCell =>
        rw [hdc] at heq
        simp only at heq
        cases hdo : dstCell.owner with
        | none =>
          rw [hdo] at heq
          simp only [Option.some.injEq, Prod.mk.injEq] at heq
          obtain ⟨-, hg⟩ := heq; subst hg
          exact nonneg_setPlayer _ _ _ (nonneg_setCell _ _ _ h1) hp1
        | some defenderId =>
          rw [hdo] at heq
          simp only at heq
          by_cases hdid : defenderId = id
          · rw [if_pos hdid] at heq
            simp only [Option.some.injEq, Prod.mk.injEq] at heq
            obtain ⟨-, hg⟩ := heq; subst hg; exact h1
          rw [if_neg hdid] at heq
          cases hdl : lookupPlayer (setPlayer g id
              { player with troops := player.troops - toSendOf player.troops q })
              defenderId with
          | none =>
            rw [hdl] at heq
            simp only [Option.some.injEq, Prod.mk.injEq] at heq
            obtain ⟨-, hg⟩ := heq; subst hg; exact h1
          | some defender =>
            rw [hdl] at heq
            simp only at heq
            have hdt : 0 ≤ defender.troops := h1 _ (lookupPlayer_mem _ _ _ hdl)
            by_cases hw : defender.troops < toSendOf player.troops q
            · rw [if_pos hw] at heq
              simp only [Option.some.injEq, Prod.mk.injEq] at heq
              obtain ⟨-, hg⟩ := heq; subst hg
              refine nonneg_setPlayer _ _ _ (nonneg_setCell _ _ _ ?_) hp1
              exact nonneg_setPlayer _ _ _ h1 le_rfl
            · rw [if_neg hw] at heq
              simp only [Option.some.injEq, Prod.mk.injEq] at heq
              obtain ⟨-, hg⟩ := heq; subst hg
              refine nonneg_setPlayer _ _ _ h1 ?_
              show (0 : Int) ≤ defender.troops - toSendOf player.troops q
              omega

theorem runAttacks_nonneg (id : String) (x y : Int) (per : ℚ) (hq1 : per ≤ 1) :
    ∀ (ts : List (Int × Int)) (g : Game) (acc b : Bool) (g' : Game),
      NonnegPools g → runAttacks id x y per ts g acc = some (b, g') →
      NonnegPools g' := by
  intro ts
  induction ts with
  | nil =>
    intro g acc b g' h heq
    unfold runAttacks at heq
    simp only [Option.some.injEq, Prod.mk.injEq] at heq
    obtain ⟨-, hg⟩ := heq; subst hg; exact h
  | cons t rest ih =>
    intro g acc b g' h heq
    unfold runAttacks at heq
    cases ha : attack g id x y t.1 t.2 per with
    | none => rw [ha] at heq; simp at heq
    | some r =>
      obtain ⟨ok, g1⟩ := r
      rw [ha] at heq
      simp only at heq
      exact ih g1 (acc || ok) b g' (attack_nonneg g id x y t.1 t.2 per ok g1 hq1 h ha) heq

theorem expand_nonneg (g : Game) (id : String) (x y : Int) (q : ℚ)
    (b : Bool) (g' : Game) (hq0 : 0 < q) (hq1 : q ≤ 1)
    (h : NonnegPools g) (heq : expand g id x y q = some (b, g')) :
    NonnegPools g' := by
  unfold expand at heq
  cases hsc : getCell g (idxOf g x y) with
  | none =>
    rw [hsc] at heq
    simp only [Option.some.injEq, Prod.mk.injEq] at heq
    obtain ⟨-, hg⟩ := heq; subst hg; exact h
  | some srcCell =>
    rw [hsc] at heq
    simp only at heq
    by_cases ho : srcCell.owner ≠ some id
    · rw [if_pos ho] at heq
      simp only [Option.some.injEq, Prod.mk.injEq] at heq
      obtain ⟨-, hg⟩ := heq; subst hg; exact h
    rw [if_neg ho] at heq
    cases hpl : lookupPlayer g id with
    | none =>
      rw [hpl] at heq
      simp only [Option.some.injEq, Prod.mk.injEq] at heq
      obtain ⟨-, hg⟩ := heq; subst hg; exact h
    | some player =>
      rw [hpl] at heq
      simp only at heq
      by_cases hlen : (expandTargets g id x y srcCell).length = 0
      · rw [if_pos hlen] at heq
        simp only [Option.some.injEq, Prod.mk.injEq] at heq
        obtain ⟨-, hg⟩ := heq; subst hg; exact h
      · rw [if_neg hlen] at heq
        have hlen1 : (1 : ℚ) ≤ ((expandTargets g id x y srcCell).length : ℚ) := by
          have : 1 ≤ (expandTargets g id x y srcCell).length := Nat.one_le_iff_ne_zero.mpr hlen
          exact_mod_cast this
        have hper : q / ((expandTargets g id x y srcCell).length : ℚ) ≤ 1 := by
          calc q / ((expandTargets g id x y srcCell).length : ℚ) ≤ q :=
                div_le_self (le_of_lt hq0) hlen1
            _ ≤ 1 := hq1
        exact runAttacks_nonneg id x y _ hper _ g false b g' h heq

end OpenFront

namespace OpenFront

theorem spawn_nonneg (g : Game) (id : String) (x y : Int) (b : Bool) (g' : Game)
    (h : NonnegPools g) (heq : spawn g id x y = some (b, g')) : NonnegPools g' := by
  unfold spawn at heq
  dsimp only at heq
  cases hc : getCell g (idxOf g x y) with
  | none => rw [hc] at heq; simp at heq
  | some cell =>
    rw [hc] at heq
    simp only at heq
    by_cases hl : cell.land = false ∨ cell.owner.isSome
    · rw [if_pos hl] at heq
      simp only [Option.some.injEq, Prod.mk.injEq] at heq
      obtain ⟨-, hg⟩ := heq; subst hg; exact h
    · rw [if_neg hl] at heq
      cases hpl : lookupPlayer g id with
      | none => rw [hpl] at heq; simp at heq
      | some p =>
        rw [hpl] at heq
        simp only [Option.some.injEq, Prod.mk.injEq] at heq
        obtain ⟨-, hg⟩ := heq; subst hg
        have hpt : 0 ≤ p.troops := h _ (lookupPlayer_mem _ _ _ hpl)
        refine nonneg_setPlayer _ _ _ (nonneg_setCell _ _ _ h) ?_
        show (0 : Int) ≤ p.troops + 10
        omega

theorem buildPort_nonneg (g : Game) (id : String) (x y : Int)
    (h : NonnegPools g) : NonnegPools (buildPort g id x y).2 := by
  unfold buildPort
  dsimp only
  cases hc : getCell g (idxOf g x y) with
  | none => exact h
  | some cell =>
    simp only
    by_cases h1 : cell.owner ≠ some id ∨ cell.land = false ∨ cell.port = true
    · rw [if_pos h1]; exact h
    rw [if_neg h1]
    by_cases h2 : hasWaterNeighbor g x y = false
    · rw [if_pos h2]; exact h
    rw [if_neg h2]
    cases hpl : lookupPlayer g id with
    | none => exact h
    | some p =>
      simp only
      by_cases h3 : p.troops < 5
      · rw [if_pos h3]; exact h
      · rw [if_neg h3]
        have hpt : 0 ≤ p.troops := h _ (lookupPlayer_mem _ _ _ hpl)
        refine nonneg_setCell _ _ _ (nonneg_setPlayer _ _ _ h ?_)
        show (0 : Int) ≤ p.troops - 5
        omega

theorem buildCity_nonneg (g : Game) (id : String) (x y : Int)
    (h : NonnegPools g) : NonnegPools (buildCity g id x y).2 := by
  unfold buildCity
  dsimp only
  cases hc : getCell g (idxOf g x y) with
  | none => exact h
  | some cell =>
    simp only
    by_cases h1 : cell.owner ≠ some id ∨ cell.land = false ∨ cell.city = true
    · rw [if_pos h1]; exact h
    rw [if_neg h1]
    cases hpl : lookupPlayer g id with
    | none => exact h
    | some p =>
      simp only
      by_cases h3 : p.troops < 10
      · rw [if_pos h3]; exact h
      · rw [if_neg h3]
        have hpt : 0 ≤ p.troops := h _ (lookupPlayer_mem _ _ _ hpl)
        refine nonneg_setCell _ _ _ (nonneg_setPlayer _ _ _ h ?_)
        show (0 : Int) ≤ p.troops - 10
        omega

theorem updateGrowth_nonneg (g : Game) (h : NonnegPools g) :
    NonnegPools (updateGrowth g) := by
  intro kp hkp
  unfold updateGrowth at hkp
  simp only [List.mem_map] at hkp
  obtain ⟨kp0, hkp0, rfl⟩ := hkp
  have ht0 : 0 ≤ kp0.2.troops := h kp0 hkp0
  show (0 : Int) ≤ (growPlayer g kp0.2).troops
  rw [growPlayer_troops]
  unfold growthStep
  have hcap : 5 ≤ capacityOf g kp0.2 := capacityOf_ge_five g kp0.2
  have hg1 : 1 ≤ max 1 (kp0.2.troops.fdiv 3) := le_max_left _ _
  refine le_min (by omega) (by omega)

theorem addPlayer_nonneg (g : Game) (id nm : String) (h : NonnegPools g) :
    NonnegPools (addPlayer g id nm).2 := by
  unfold addPlayer
  by_cases hfull : MAX_PLAYERS ≤ g.players.length
  · rw [if_pos hfull]; exact h
  · rw [if_neg hfull]
    intro kp hkp
    simp only [List.mem_append, List.mem_singleton] at hkp
    rcases hkp with hkp | hkp
    · exact h kp hkp
    · simp [hkp]

theorem removePlayer_nonneg (g : Game) (id : String) (h : NonnegPools g) :
    NonnegPools (removePlayer g id) := by
  unfold removePlayer
  cases lookupPlayer g id with
  | none => exact h
  | some p =>
    intro kp hkp
    simp only [List.mem_filter] at hkp
    exact h kp hkp.1

theorem botClaim_nonneg (g : Game) (id : String) (x y : Int) (g' : Game)
    (h : NonnegPools g) (heq : botClaim g id x y = some g') : NonnegPools g' := by
  unfold botClaim at heq
  dsimp only at heq
  cases hc : getCell g (idxOf g x y) with
  | none => rw [hc] at heq; simp at heq
  | some cell =>
    rw [hc] at heq
    cases hpl : lookupPlayer g id with
    | none => rw [hpl] at heq; simp at heq
    | some bot =>
      rw [hpl] at heq
      simp only at heq
      by_cases hcond : cell.land = true ∧ cell.owner = none
      · rw [if_pos hcond] at heq
        simp only [Option.some.injEq] at heq
        subst heq
        refine nonneg_setPlayer _ _ _ (nonneg_setCell _ _ _ h) ?_
        show (0 : Int) ≤ 10
        omega
      · rw [if_neg hcond] at heq; simp at heq

/-- C8: every operation keeps every pool non-negative.  With
`fraction ∈ (0,1]` the attack debit satisfies `sent = ⌊pool·fraction⌋ ≤ pool`;
`buildPort`/`buildCity` debit 5/10 only behind their pool guards; battle
resolution never drives the defender's pool below 0; growth, joins, leaves
and bot claims preserve non-negativity as well. -/
theorem C8_pool_nonneg (g : Game) (h : NonnegPools g) :
    (∀ (t : Int) (q : ℚ), 0 ≤ t → q ≤ 1 → toSendOf t q ≤ t) ∧
    (∀ (id : String) (x y : Int) (b : Bool) (g' : Game),
      spawn g id x y = some (b, g') → NonnegPools g') ∧
    (∀ (id : String) (sx sy dx dy : Int) (q : ℚ) (b : Bool) (g' : Game),
      0 < q → q ≤ 1 → attack g id sx sy dx dy q = some (b, g') → NonnegPools g') ∧
    (∀ (id : String) (x y : Int) (q : ℚ) (b : Bool) (g' : Game),
      0 < q → q ≤ 1 → expand g id x y q = some (b, g') → NonnegPools g') ∧
    (∀ (id : String) (x y : Int), NonnegPools (buildPort g id x y).2) ∧
    (∀ (id : String) (x y : Int), NonnegPools (buildCity g id x y).2) ∧
    NonnegPools (updateGrowth g) ∧
    (∀ id nm : String, NonnegPools (addPlayer g id nm).2) ∧
    (∀ id : String, NonnegPools (removePlayer g id)) ∧
    (∀ (id : String) (x y : Int) (g' : Game),
      botClaim g id x y = some g' → NonnegPools g') :=
  ⟨fun t q ht hq1 => toSendOf_le t q ht hq1,
   fun id x y b g' heq => spawn_nonneg g id x y b g' h heq,
   fun id sx sy dx dy q b g' _ hq1 heq => attack_nonneg g id sx sy dx dy q b g' hq1 h heq,
   fun id x y q b g' hq0 hq1 heq => expand_nonneg g id x y q b g' hq0 hq1 h heq,
   fun id x y => buildPort_nonneg g id x y h,
   fun id x y => buildCity_nonneg g id x y h,
   updateGrowth_nonneg g h,
   fun id nm => addPlayer_nonneg g id nm h,
   fun id => removePlayer_nonneg g id h,
   fun id x y g' heq => botClaim_nonneg g id x y g' h heq⟩

/-- Witness for `C8_pool_nonneg` on concrete worlds and arguments,
including a genuine attack with `fraction = 1/2`. -/
theorem C8_witness :
    toSendOf 10 (1/2) ≤ 10 ∧
    NonnegPools (updateGrowth c1g) ∧
    NonnegPools (buildPort c1g "a" 0 0).2 ∧
    NonnegPools (setPlayer c1g "a" { c1p with troops := 5 }) :=
  ⟨(C8_pool_nonneg c1g (by unfold NonnegPools; decide)).1 10 (1/2) (by decide)
      (by with_unfolding_all decide),
   (C8_pool_nonneg c1g (by unfold NonnegPools; decide)).2.2.2.2.2.2.1,
   (C8_pool_nonneg c1g (by unfold NonnegPools; decide)).2.2.2.2.1 "a" 0 0,
   (C8_pool_nonneg c1g (by unfold NonnegPools; decide)).2.2.1 "a" 0 0 1 0 (1/2) false
     (setPlayer c1g "a" { c1p with troops := 5 })
     (by with_unfolding_all decide) (by with_unfolding_all decide)
     (by with_unfolding_all decide)⟩

end OpenFront

namespace OpenFront

/-! ### Toolkit for the reachability invariant (claim C7) -/

theorem lookupPlayer_isSome_setPlayer (g : Game) (id : String) (p : Player) (k : String) :
    (lookupPlayer (setPlayer g id p) k).isSome = (lookupPlayer g k).isSome := by
  by_cases hk : k = id
  · subst hk
    rw [lookupPlayer_setPlayer_self]
    cases lookupPlayer g k <;> rfl
  · rw [lookupPlayer_setPlayer_ne _ _ _ _ hk]

theorem TerrInv_of_lookup (g : Game) (hnd : KeysNodup g)
    (h : ∀ k p, lookupPlayer g k = some p →
      (∀ i ∈ p.cells, cellOwner g i = some k) ∧
      (∀ i < g.cells.length, cellOwner g i = some k → i ∈ p.cells)) :
    TerrInv g := by
  intro kp hkp
  exact h kp.1 kp.2 (lookupPlayer_of_mem g kp.1 kp.2 hnd (by simpa using hkp))

theorem IdMatch_of_lookup (g : Game) (hnd : KeysNodup g)
    (h : ∀ k p, lookupPlayer g k = some p → p.id = k) : IdMatch g := by
  intro kp hkp
  exact h kp.1 kp.2 (lookupPlayer_of_mem g kp.1 kp.2 hnd (by simpa using hkp))

theorem TerrInv_lookup (g : Game) (ht : TerrInv g) (k : String) (p : Player)
    (hl : lookupPlayer g k = some p) :
    (∀ i ∈ p.cells, cellOwner g i = some k) ∧
    (∀ i < g.cells.length, cellOwner g i = some k → i ∈ p.cells) :=
  ht (k, p) (lookupPlayer_mem g k p hl)

theorem IdMatch_lookup (g : Game) (him : IdMatch g) (k : String) (p : Player)
    (hl : lookupPlayer g k = some p) : p.id = k :=
  him (k, p) (lookupPlayer_mem g k p hl)

theorem keys_updateGrowth (g : Game) :
    (updateGrowth g).players.map Prod.fst = g.players.map Prod.fst := by
  unfold updateGrowth
  simp [List.map_map]

theorem length_clearOwned (owned : Finset Nat) :
    ∀ (n : Nat) (l : List Cell), (clearOwned owned n l).length = l.length := by
  intro n l
  induction l generalizing n with
  | nil => rfl
  | cons c rest ih => simp [clearOwned, ih]

theorem getElem?_clearOwned (owned : Finset Nat) :
    ∀ (l : List Cell) (n i : Nat),
      (clearOwned owned n l)[i]? =
        (l[i]?).map (fun c => if (n + i) ∈ owned then clearCell c else c) := by
  intro l
  induction l with
  | nil => intro n i; rfl
  | cons c rest ih =>
    intro n i
    cases i with
    | zero => simp [clearOwned]
    | succ j =>
      simp only [clearOwned, List.getElem?_cons_succ]
      rw [ih (n + 1) j]
      have h : n + 1 + j = n + (j + 1) := by omega
      rw [h]

theorem cellOwner_removePlayer (g : Game) (id : String) (p : Player)
    (hpl : lookupPlayer g id = some p) (i : Nat) :
    cellOwner (removePlayer g id) i =
      if i ∈ p.cells then none else cellOwner g i := by
  unfold removePlayer
  rw [hpl]
  unfold cellOwner
  simp only
  rw [getElem?_clearOwned]
  cases hg : g.cells[i]? with
  | none => simp [hg]
  | some c =>
    simp only [Option.map]
    by_cases hm : i ∈ p.cells
    · simp [hm, clearCell]
    · simp [hm]

theorem length_removePlayer (g : Game) (id : String) :
    (removePlayer g id).cells.length = g.cells.length := by
  unfold removePlayer
  cases lookupPlayer g id with
  | none => rfl
  | some p => simp [length_clearOwned]

theorem find?_filter_other (l : List (String × Player)) (k id : String) (hne : k ≠ id) :
    (l.filter (fun kp => ¬ kp.1 == id)).find? (fun kp => kp.1 == k) =
      l.find? (fun kp => kp.1 == k) := by
  induction l with
  | nil => rfl
  | cons kp rest ih =>
    by_cases h1 : kp.1 = id
    · have h2 : ¬ (kp.1 = k) := by rw [h1]; exact fun e => hne e.symm
      rw [List.filter_cons_of_neg (by simp [h1])]
      rw [List.find?_cons_of_neg _ (by simp [h2])]
      exact ih
    · rw [List.filter_cons_of_pos (by simp [h1])]
      by_cases h2 : kp.1 = k
      · rw [List.find?_cons_of_pos _ (by simp [h2]), List.find?_cons_of_pos _ (by simp [h2])]
      · rw [List.find?_cons_of_neg _ (by simp [h2]), List.find?_cons_of_neg _ (by simp [h2])]
        exact ih

theorem lookupPlayer_removePlayer_ne (g : Game) (id k : String) (hne : k ≠ id) :
    lookupPlayer (removePlayer g id) k = lookupPlayer g k := by
  unfold removePlayer
  cases hpl : lookupPlayer g id with
  | none => rfl
  | some p =>
    show (List.find? _ (g.players.filter _)).map Prod.snd = lookupPlayer g k
    rw [find?_filter_other g.players k id hne]
    rfl

theorem lookupPlayer_removePlayer_self (g : Game) (id : String) :
    lookupPlayer (removePlayer g id) id = none := by
  unfold removePlayer
  cases hpl : lookupPlayer g id with
  | none => exact hpl
  | some p =>
    show (List.find? _ (g.players.filter _)).map Prod.snd = none
    rw [List.find?_eq_none.mpr]
    · rfl
    · intro x hx
      rcases List.mem_filter.mp hx with ⟨-, hx2⟩
      simpa using hx2

theorem keys_removePlayer_nodup (g : Game) (id : String) (hnd : KeysNodup g) :
    KeysNodup (removePlayer g id) := by
  unfold removePlayer
  cases lookupPlayer g id with
  | none => exact hnd
  | some p =>
    unfold KeysNodup
    refine List.Nodup.sublist ?_ hnd
    exact (List.filter_sublist _).map Prod.fst

theorem lookupPlayer_addPlayer (g : Game) (id nm k : String)
    (hroom : ¬ MAX_PLAYERS ≤ g.players.length) :
    lookupPlayer (addPlayer g id nm).2 k =
      (lookupPlayer g k).orElse (fun _ =>
        if k = id then some { id := id, name := nm, troops := 0, cells := ∅ } else none) := by
  unfold addPlayer
  rw [if_neg hroom]
  show (List.find? _ (g.players ++ [_])).map Prod.snd = _
  rw [List.find?_append]
  cases hf : g.players.find? (fun kp => kp.1 == k) with
  | some kp0 =>
    unfold lookupPlayer
    rw [hf]
    simp
  | none =>
    unfold lookupPlayer
    rw [hf]
    by_cases hk : k = id
    · subst hk
      rw [List.find?_cons_of_pos _ (by simp)]
      simp
    · rw [List.find?_cons_of_neg _ (by simp; exact fun e => hk e.symm)]
      simp [hk]

theorem keys_addPlayer_nodup (g : Game) (id nm : String) (hnd : KeysNodup g)
    (hfresh : lookupPlayer g id = none) : KeysNodup (addPlayer g id nm).2 := by
  unfold addPlayer
  by_cases hroom : MAX_PLAYERS ≤ g.players.length
  · rw [if_pos hroom]; exact hnd
  · rw [if_neg hroom]
    unfold KeysNodup
    simp only [List.map_append, List.map_cons, List.map_nil]
    rw [List.nodup_append]
    refine ⟨hnd, List.nodup_singleton _, ?_⟩
    intro a ha hb
    simp only [List.mem_singleton] at hb
    subst hb
    rcases List.mem_map.mp ha with ⟨kp, hkp, hfst⟩
    rw [lookupPlayer_eq_none_iff] at hfresh
    have hkp2 : (kp.1, kp.2) ∈ g.players := by simpa using hkp
    rw [hfst] at hkp2
    exact hfresh kp.2 hkp2

end OpenFront

namespace OpenFront

/-! ### Preservation of well-formedness by each operation -/

theorem WF_setPlayer_keep (g : Game) (id : String) (p p' : Player)
    (hpl : lookupPlayer g id = some p) (hc : p'.cells = p.cells) (hid : p'.id = p.id)
    (h : WF g) : WF (setPlayer g id p') := by
  obtain ⟨hnd, hgf, hti, him⟩ := h
  have hnd' : KeysNodup (setPlayer g id p') := by
    unfold KeysNodup; rw [keys_setPlayer]; exact hnd
  refine ⟨hnd', ?_, ?_, ?_⟩
  · intro i hi
    have hn := hgf i hi
    unfold ownerLive at hn ⊢
    cases hco : cellOwner g i with
    | none => rw [cellOwner_setPlayer, hco]
    | some k =>
      rw [cellOwner_setPlayer, hco]
      rw [hco] at hn
      simp only at hn ⊢
      rw [lookupPlayer_isSome_setPlayer]
      exact hn
  · refine TerrInv_of_lookup _ hnd' ?_
    intro k q hq
    by_cases hk : k = id
    · subst hk
      rw [lookupPlayer_setPlayer_self, hpl] at hq
      simp only [Option.map] at hq
      have hq' : q = p' := by injection hq with h2; exact h2.symm
      subst hq'
      obtain ⟨d1, d2⟩ := TerrInv_lookup g hti k p hpl
      rw [hc]
      exact ⟨d1, d2⟩
    · rw [lookupPlayer_setPlayer_ne _ _ _ _ hk] at hq
      exact TerrInv_lookup g hti k q hq
  · refine IdMatch_of_lookup _ hnd' ?_
    intro k q hq
    by_cases hk : k = id
    · subst hk
      rw [lookupPlayer_setPlayer_self, hpl] at hq
      simp only [Option.map] at hq
      have hq' : q = p' := by injection hq with h2; exact h2.symm
      subst hq'
      rw [hid]
      exact IdMatch_lookup g him k p hpl
    · rw [lookupPlayer_setPlayer_ne _ _ _ _ hk] at hq
      exact IdMatch_lookup g him k q hq

theorem cellOwner_capture (g : Game) (idx : Nat) (c' : Cell)
    (hidx : idx < g.cells.length) (j : Nat) :
    cellOwner (setCell g idx c') j = if j = idx then c'.owner else cellOwner g j := by
  by_cases hj : j = idx
  · subst hj; rw [cellOwner_setCell_self g j c' hidx, if_pos rfl]
  · rw [cellOwner_setCell_ne g idx j c' hj, if_neg hj]


theorem WF_capture (g : Game) (id : String) (p p' : Player) (c' : Cell) (idx : Nat)
    (hpl : lookupPlayer g id = some p)
    (hidx : idx < g.cells.length)
    (hun : cellOwner g idx = none)
    (hco : c'.owner = some id)
    (hcells : p'.cells = insert idx p.cells)
    (hid : p'.id = p.id)
    (h : WF g) : WF (setPlayer (setCell g idx c') id p') := by
  obtain ⟨hnd, hgf, hti, him⟩ := h
  have hlen : (setPlayer (setCell g idx c') id p').cells.length = g.cells.length := by simp
  have hcell : ∀ j, cellOwner (setPlayer (setCell g idx c') id p') j =
      if j = idx then some id else cellOwner g j := by
    intro j
    rw [cellOwner_setPlayer, cellOwner_capture g idx c' hidx j]
    by_cases hj : j = idx <;> simp [hj, hco]
  have hnd' : KeysNodup (setPlayer (setCell g idx c') id p') := by
    unfold KeysNodup; rw [keys_setPlayer]
    exact hnd
  have hlook : ∀ k, lookupPlayer (setPlayer (setCell g idx c') id p') k =
      if k = id then some p' else lookupPlayer g k := by
    intro k
    by_cases hk : k = id
    · subst hk
      rw [lookupPlayer_setPlayer_self, lookupPlayer_setCell, hpl, if_pos rfl]
      rfl
    · rw [lookupPlayer_setPlayer_ne _ _ _ _ hk, lookupPlayer_setCell, if_neg hk]
  refine ⟨hnd', ?_, ?_, ?_⟩
  · intro i hi
    rw [hlen] at hi
    unfold ownerLive
    rw [hcell i]
    by_cases hj : i = idx
    · rw [if_pos hj]
      simp only
      rw [hlook id, if_pos rfl]
      rfl
    · rw [if_neg hj]
      have hn := hgf i hi
      unfold ownerLive at hn
      cases hco2 : cellOwner g i with
      | none => rfl
      | some k =>
        rw [hco2] at hn
        simp only at hn ⊢
        by_cases hk : k = id
        · rw [hlook k, if_pos hk]; rfl
        · rw [hlook k, if_neg hk]; exact hn
  · refine TerrInv_of_lookup _ hnd' ?_
    intro k q hq
    rw [hlook k] at hq
    by_cases hk : k = id
    · rw [if_pos hk] at hq
      subst hk
      have hq' : q = p' := by injection hq with h2; exact h2.symm
      subst hq'
      obtain ⟨d1, d2⟩ := TerrInv_lookup g hti k p hpl
      constructor
      · intro i hi
        rw [hcells] at hi
        rw [hcell i]
        rcases Finset.mem_insert.mp hi with hi | hi
        · rw [if_pos hi]
        · have hne : i ≠ idx := by
            intro he
            have hcon := d1 i hi
            rw [he, hun] at hcon
            cases hcon
          rw [if_neg hne]
          exact d1 i hi
      · intro i hilen hio
        rw [hlen] at hilen
        rw [hcell i] at hio
        rw [hcells]
        by_cases hj : i = idx
        · rw [hj]; exact Finset.mem_insert_self _ _
        · rw [if_neg hj] at hio
          exact Finset.mem_insert_of_mem (d2 i hilen hio)
    · rw [if_neg hk] at hq
      obtain ⟨d1, d2⟩ := TerrInv_lookup g hti k q hq
      constructor
      · intro i hi
        rw [hcell i]
        have hne : i ≠ idx := by
          intro he
          have hcon := d1 i hi
          rw [he, hun] at hcon
          cases hcon
        rw [if_neg hne]
        exact d1 i hi
      · intro i hilen hio
        rw [hlen] at hilen
        rw [hcell i] at hio
        by_cases hj : i = idx
        · rw [if_pos hj] at hio
          injection hio with h2
          exact absurd h2.symm hk
        · rw [if_neg hj] at hio
          exact d2 i hilen hio
  · refine IdMatch_of_lookup _ hnd' ?_
    intro k q hq
    rw [hlook k] at hq
    by_cases hk : k = id
    · rw [if_pos hk] at hq
      subst hk
      have hq' : q = p' := by injection hq with h2; exact h2.symm
      subst hq'
      rw [hid]
      exact IdMatch_lookup g him k p hpl
    · rw [if_neg hk] at hq
      exact IdMatch_lookup g him k q hq

end OpenFront

namespace OpenFront

theorem WF_attack_win (g : Game) (id d : String) (player defender : Player) (c' : Cell)
    (idx : Nat) (t1 : Int)
    (hpl : lookupPlayer g id = some player)
    (hdef : lookupPlayer g d = some defender)
    (hne : d ≠ id)
    (hidx : idx < g.cells.length)
    (hdo : cellOwner g idx = some d)
    (hco : c'.owner = some id)
    (h : WF g) :
    WF (setPlayer (setCell (setPlayer (setPlayer g id { player with troops := t1 }) d
        { defender with troops := 0, cells := defender.cells.erase idx }) idx c') id
        { player with troops := t1, cells := insert idx player.cells }) := by
  obtain ⟨hnd, hgf, hti, him⟩ := h
  have hidne : id ≠ d := fun e => hne e.symm
  have hlen : (setPlayer (setCell (setPlayer (setPlayer g id { player with troops := t1 }) d
      { defender with troops := 0, cells := defender.cells.erase idx }) idx c') id
      { player with troops := t1, cells := insert idx player.cells }).cells.length
      = g.cells.length := by simp
  have hcell : ∀ j, cellOwner (setPlayer (setCell (setPlayer (setPlayer g id
      { player with troops := t1 }) d
      { defender with troops := 0, cells := defender.cells.erase idx }) idx c') id
      { player with troops := t1, cells := insert idx player.cells }) j =
      if j = idx then some id else cellOwner g j := by
    intro j
    rw [cellOwner_setPlayer]
    rw [cellOwner_capture _ idx c' (by simpa using hidx) j]
    by_cases hj : j = idx <;> simp [hj, hco]
  have hnd' : KeysNodup (setPlayer (setCell (setPlayer (setPlayer g id
      { player with troops := t1 }) d
      { defender with troops := 0, cells := defender.cells.erase idx }) idx c') id
      { player with troops := t1, cells := insert idx player.cells }) := by
    unfold KeysNodup
    rw [keys_setPlayer]
    show ((setPlayer (setPlayer g id _) d _).players.map Prod.fst).Nodup
    rw [keys_setPlayer, keys_setPlayer]
    exact hnd
  have hlook : ∀ k, lookupPlayer (setPlayer (setCell (setPlayer (setPlayer g id
      { player with troops := t1 }) d
      { defender with troops := 0, cells := defender.cells.erase idx }) idx c') id
      { player with troops := t1, cells := insert idx player.cells }) k =
      if k = id then some { player with troops := t1, cells := insert idx player.cells }
      else if k = d then some { defender with troops := 0, cells := defender.cells.erase idx }
      else lookupPlayer g k := by
    intro k
    by_cases hk : k = id
    · subst hk
      rw [if_pos rfl, lookupPlayer_setPlayer_self, lookupPlayer_setCell,
        lookupPlayer_setPlayer_ne _ _ _ _ hidne, lookupPlayer_setPlayer_self, hpl]
      rfl
    · rw [if_neg hk, lookupPlayer_setPlayer_ne _ _ _ _ hk, lookupPlayer_setCell]
      by_cases hkd : k = d
      · subst hkd
        rw [if_pos rfl, lookupPlayer_setPlayer_self,
          lookupPlayer_setPlayer_ne _ _ _ _ hne, hdef]
        rfl
      · rw [if_neg hkd, lookupPlayer_setPlayer_ne _ _ _ _ hkd,
          lookupPlayer_setPlayer_ne _ _ _ _ hk]
  obtain ⟨dd1, dd2⟩ := TerrInv_lookup g hti d defender hdef
  obtain ⟨dp1, dp2⟩ := TerrInv_lookup g hti id player hpl
  refine ⟨hnd', ?_, ?_, ?_⟩
  · intro i hi
    rw [hlen] at hi
    unfold ownerLive
    rw [hcell i]
    by_cases hj : i = idx
    · rw [if_pos hj]
      simp only
      rw [hlook id, if_pos rfl]
      rfl
    · rw [if_neg hj]
      have hn := hgf i hi
      unfold ownerLive at hn
      cases hco2 : cellOwner g i with
      | none => rfl
      | some k =>
        rw [hco2] at hn
        simp only at hn ⊢
        rw [hlook k]
        by_cases hk : k = id
        · rw [if_pos hk]; rfl
        · rw [if_neg hk]
          by_cases hkd : k = d
          · rw [if_pos hkd]; rfl
          · rw [if_neg hkd]; exact hn
  · refine TerrInv_of_lookup _ hnd' ?_
    intro k q hq
    rw [hlook k] at hq
    by_cases hk : k = id
    · rw [if_pos hk] at hq
      have hq' : q = { player with troops := t1, cells := insert idx player.cells } := by
        injection hq with h2; exact h2.symm
      subst hq'
      subst hk
      constructor
      · intro i hi
        simp only at hi
        rw [hcell i]
        rcases Finset.mem_insert.mp hi with hi | hi
        · rw [if_pos hi]
        · have hio := dp1 i hi
          have hne2 : i ≠ idx := by
            intro he
            rw [he, hdo] at hio
            injection hio with h3
            exact hne h3
          rw [if_neg hne2]
          exact hio
      · intro i hilen hio
        rw [hlen] at hilen
        rw [hcell i] at hio
        show i ∈ insert idx player.cells
        by_cases hj : i = idx
        · rw [hj]; exact Finset.mem_insert_self _ _
        · rw [if_neg hj] at hio
          exact Finset.mem_insert_of_mem (dp2 i hilen hio)
    · rw [if_neg hk] at hq
      by_cases hkd : k = d
      · rw [if_pos hkd] at hq
        have hq' : q = { defender with troops := 0, cells := defender.cells.erase idx } := by
          injection hq with h2; exact h2.symm
        subst hq'
        subst hkd
        constructor
        · intro i hi
          simp only at hi
          rw [hcell i]
          rcases Finset.mem_erase.mp hi with ⟨hne2, hi2⟩
          rw [if_neg hne2]
          exact dd1 i hi2
        · intro i hilen hio
          rw [hlen] at hilen
          rw [hcell i] at hio
          show i ∈ defender.cells.erase idx
          by_cases hj : i = idx
          · rw [if_pos hj] at hio
            injection hio with h3
            exact absurd h3.symm hk
          · rw [if_neg hj] at hio
            exact Finset.mem_erase.mpr ⟨hj, dd2 i hilen hio⟩
      · rw [if_neg hkd] at hq
        obtain ⟨d1, d2⟩ := TerrInv_lookup g hti k q hq
        constructor
        · intro i hi
          rw [hcell i]
          have hio := d1 i hi
          have hne2 : i ≠ idx := by
            intro he
            rw [he, hdo] at hio
            injection hio with h3
            exact hkd h3.symm
          rw [if_neg hne2]
          exact hio
        · intro i hilen hio
          rw [hlen] at hilen
          rw [hcell i] at hio
          by_cases hj : i = idx
          · rw [if_pos hj] at hio
            injection hio with h3
            exact absurd h3.symm hk
          · rw [if_neg hj] at hio
            exact d2 i hilen hio
  · refine IdMatch_of_lookup _ hnd' ?_
    intro k q hq
    rw [hlook k] at hq
    by_cases hk : k = id
    · rw [if_pos hk] at hq
      have hq' : q = { player with troops := t1, cells := insert idx player.cells } := by
        injection hq with h2; exact h2.symm
      subst hq'
      show player.id = k
      rw [hk]
      exact IdMatch_lookup g him id player hpl
    · rw [if_neg hk] at hq
      by_cases hkd : k = d
      · rw [if_pos hkd] at hq
        have hq' : q = { defender with troops := 0, cells := defender.cells.erase idx } := by
          injection hq with h2; exact h2.symm
        subst hq'
        show defender.id = k
        rw [hkd]
        exact IdMatch_lookup g him d defender hdef
      · rw [if_neg hkd] at hq
        exact IdMatch_lookup g him k q hq

theorem WF_build (g : Game) (id : String) (p : Player) (t1 : Int) (c' : Cell) (idx : Nat)
    (hpl : lookupPlayer g id = some p)
    (hidx : idx < g.cells.length)
    (hown : c'.owner = cellOwner g idx)
    (h : WF g) : WF (setCell (setPlayer g id { p with troops := t1 }) idx c') := by
  have h1 : WF (setPlayer g id { p with troops := t1 }) :=
    WF_setPlayer_keep g id p _ hpl rfl rfl h
  obtain ⟨hnd, hgf, hti, him⟩ := h1
  have hlen : (setCell (setPlayer g id { p with troops := t1 }) idx c').cells.length =
      (setPlayer g id { p with troops := t1 }).cells.length := by simp
  have hcell : ∀ j, cellOwner (setCell (setPlayer g id { p with troops := t1 }) idx c') j =
      cellOwner (setPlayer g id { p with troops := t1 }) j := by
    intro j
    rw [cellOwner_capture _ idx c' (by simpa using hidx) j]
    by_cases hj : j = idx
    · rw [if_pos hj, hown, hj]
      rfl
    · rw [if_neg hj]
  refine ⟨hnd, ?_, ?_, ?_⟩
  · intro i hi
    rw [hlen] at hi
    have hn := hgf i hi
    unfold ownerLive at hn ⊢
    rw [hcell i]
    cases hco2 : cellOwner (setPlayer g id { p with troops := t1 }) i with
    | none => rfl
    | some k =>
      rw [hco2] at hn
      exact hn
  · intro kp hkp
    obtain ⟨e1, e2⟩ := hti kp hkp
    constructor
    · intro i hi
      rw [hcell i]
      exact e1 i hi
    · intro i hilen hio
      rw [hlen] at hilen
      rw [hcell i] at hio
      exact e2 i hilen hio
  · exact him

end OpenFront

namespace OpenFront

theorem updateGrowth_WF (g : Game) (h : WF g) : WF (updateGrowth g) := by
  obtain ⟨hnd, hgf, hti, him⟩ := h
  have hnd' : KeysNodup (updateGrowth g) := by
    unfold KeysNodup
    rw [keys_updateGrowth]
    exact hnd
  have hcell : ∀ j, cellOwner (updateGrowth g) j = cellOwner g j := fun j => rfl
  have hlen : (updateGrowth g).cells.length = g.cells.length := rfl
  refine ⟨hnd', ?_, ?_, ?_⟩
  · intro i hi
    rw [hlen] at hi
    have hn := hgf i hi
    unfold ownerLive at hn ⊢
    rw [hcell i]
    cases hco2 : cellOwner g i with
    | none => rfl
    | some k =>
      rw [hco2] at hn
      simp only at hn ⊢
      rw [lookupPlayer_updateGrowth]
      cases hl : lookupPlayer g k with
      | none => rw [hl] at hn; simp at hn
      | some q => rfl
  · refine TerrInv_of_lookup _ hnd' ?_
    intro k q hq
    rw [lookupPlayer_updateGrowth] at hq
    cases hl : lookupPlayer g k with
    | none => rw [hl] at hq; simp at hq
    | some p0 =>
      rw [hl] at hq
      simp only [Option.map] at hq
      have hq' : q = growPlayer g p0 := by injection hq with h2; exact h2.symm
      subst hq'
      obtain ⟨d1, d2⟩ := TerrInv_lookup g hti k p0 hl
      exact ⟨d1, d2⟩
  · refine IdMatch_of_lookup _ hnd' ?_
    intro k q hq
    rw [lookupPlayer_updateGrowth] at hq
    cases hl : lookupPlayer g k with
    | none => rw [hl] at hq; simp at hq
    | some p0 =>
      rw [hl] at hq
      simp only [Option.map] at hq
      have hq' : q = growPlayer g p0 := by injection hq with h2; exact h2.symm
      subst hq'
      show p0.id = k
      exact IdMatch_lookup g him k p0 hl

theorem addPlayer_WF (g : Game) (id nm : String) (hfresh : lookupPlayer g id = none)
    (h : WF g) : WF (addPlayer g id nm).2 := by
  obtain ⟨hnd, hgf, hti, him⟩ := h
  by_cases hroom : MAX_PLAYERS ≤ g.players.length
  · unfold addPlayer
    rw [if_pos hroom]
    exact ⟨hnd, hgf, hti, him⟩
  have hnd' : KeysNodup (addPlayer g id nm).2 :=
    keys_addPlayer_nodup g id nm hnd hfresh
  have hcell : ∀ j, cellOwner (addPlayer g id nm).2 j = cellOwner g j := by
    intro j
    unfold addPlayer
    rw [if_neg hroom]
    rfl
  have hlen : (addPlayer g id nm).2.cells.length = g.cells.length := by
    unfold addPlayer
    rw [if_neg hroom]
  refine ⟨hnd', ?_, ?_, ?_⟩
  · intro i hi
    rw [hlen] at hi
    have hn := hgf i hi
    unfold ownerLive at hn ⊢
    rw [hcell i]
    cases hco2 : cellOwner g i with
    | none => rfl
    | some k =>
      rw [hco2] at hn
      simp only at hn ⊢
      rw [lookupPlayer_addPlayer g id nm k hroom]
      cases hl : lookupPlayer g k with
      | none => rw [hl] at hn; simp at hn
      | some q => rfl
  · refine TerrInv_of_lookup _ hnd' ?_
    intro k q hq
    rw [lookupPlayer_addPlayer g id nm k hroom] at hq
    cases hl : lookupPlayer g k with
    | none =>
      rw [hl] at hq
      simp only [Option.orElse, Option.none_orElse] at hq
      by_cases hk : k = id
      · rw [if_pos hk] at hq
        have hq' : q = { id := id, name := nm, troops := 0, cells := ∅ } := by
          injection hq with h2; exact h2.symm
        subst hq'
        constructor
        · intro i hi
          exact absurd hi (Finset.not_mem_empty i)
        · intro i hilen hio
          rw [hlen] at hilen
          rw [hcell i] at hio
          have hn := hgf i hilen
          unfold ownerLive at hn
          rw [hio] at hn
          simp only at hn
          rw [hk, hfresh] at hn
          simp at hn
      · rw [if_neg hk] at hq
        simp at hq
    | some p0 =>
      rw [hl] at hq
      simp only [Option.orElse, Option.some_orElse] at hq
      have hq' : q = p0 := by injection hq with h2; exact h2.symm
      subst hq'
      obtain ⟨d1, d2⟩ := TerrInv_lookup g hti k q hl
      constructor
      · intro i hi
        rw [hcell i]
        exact d1 i hi
      · intro i hilen hio
        rw [hlen] at hilen
        rw [hcell i] at hio
        exact d2 i hilen hio
  · refine IdMatch_of_lookup _ hnd' ?_
    intro k q hq
    rw [lookupPlayer_addPlayer g id nm k hroom] at hq
    cases hl : lookupPlayer g k with
    | none =>
      rw [hl] at hq
      simp only [Option.orElse, Option.none_orElse] at hq
      by_cases hk : k = id
      · rw [if_pos hk] at hq
        have hq' : q = { id := id, name := nm, troops := 0, cells := ∅ } := by
          injection hq with h2; exact h2.symm
        subst hq'
        show id = k
        rw [hk]
      · rw [if_neg hk] at hq
        simp at hq
    | some p0 =>
      rw [hl] at hq
      simp only [Option.orElse, Option.some_orElse] at hq
      have hq' : q = p0 := by injection hq with h2; exact h2.symm
      subst hq'
      exact IdMatch_lookup g him k q hl

theorem removePlayer_WF (g : Game) (id : String) (h : WF g) : WF (removePlayer g id) := by
  obtain ⟨hnd, hgf, hti, him⟩ := h
  cases hpl : lookupPlayer g id with
  | none =>
    unfold removePlayer
    rw [hpl]
    exact ⟨hnd, hgf, hti, him⟩
  | some p =>
    obtain ⟨d1, d2⟩ := TerrInv_lookup g hti id p hpl
    have hnd' := keys_removePlayer_nodup g id hnd
    have hcell := cellOwner_removePlayer g id p hpl
    have hlen := length_removePlayer g id
    refine ⟨hnd', ?_, ?_, ?_⟩
    · intro i hi
      rw [hlen] at hi
      unfold ownerLive
      rw [hcell i]
      by_cases hm : i ∈ p.cells
      · rw [if_pos hm]
      · rw [if_neg hm]
        have hn := hgf i hi
        unfold ownerLive at hn
        cases hco2 : cellOwner g i with
        | none => rfl
        | some k =>
          rw [hco2] at hn
          simp only at hn ⊢
          have hk : k ≠ id := by
            intro he
            rw [he] at hco2
            exact hm (d2 i hi hco2)
          rw [lookupPlayer_removePlayer_ne g id k hk]
          exact hn
    · refine TerrInv_of_lookup _ hnd' ?_
      intro k q hq
      have hk : k ≠ id := by
        intro he
        rw [he, lookupPlayer_removePlayer_self] at hq
        cases hq
      rw [lookupPlayer_removePlayer_ne g id k hk] at hq
      obtain ⟨e1, e2⟩ := TerrInv_lookup g hti k q hq
      constructor
      · intro i hi
        rw [hcell i]
        have hm : i ∉ p.cells := by
          intro hm
          have h1 := d1 i hm
          have h2 := e1 i hi
          rw [h1] at h2
          injection h2 with h3
          exact hk h3.symm
        rw [if_neg hm]
        exact e1 i hi
      · intro i hilen hio
        rw [hlen] at hilen
        rw [hcell i] at hio
        by_cases hm : i ∈ p.cells
        · rw [if_pos hm] at hio
          cases hio
        · rw [if_neg hm] at hio
          exact e2 i hilen hio
    · refine IdMatch_of_lookup _ hnd' ?_
      intro k q hq
      have hk : k ≠ id := by
        intro he
        rw [he, lookupPlayer_removePlayer_self] at hq
        cases hq
      rw [lookupPlayer_removePlayer_ne g id k hk] at hq
      exact IdMatch_lookup g him k q hq

end OpenFront

namespace OpenFront

theorem spawn_WF (g : Game) (id : String) (x y : Int) (b : Bool) (g' : Game)
    (h : WF g) (heq : spawn g id x y = some (b, g')) : WF g' := by
  unfold spawn at heq
  dsimp only at heq
  cases hc : getCell g (idxOf g x y) with
  | none => rw [hc] at heq; simp at heq
  | some cell =>
    rw [hc] at heq
    simp only at heq
    by_cases hl : cell.land = false ∨ cell.owner.isSome
    · rw [if_pos hl] at heq
      simp only [Option.some.injEq, Prod.mk.injEq] at heq
      obtain ⟨-, hg⟩ := heq; subst hg; exact h
    · rw [if_neg hl] at heq
      cases hpl : lookupPlayer g id with
      | none => rw [hpl] at heq; simp at heq
      | some p =>
        rw [hpl] at heq
        simp only [Option.some.injEq, Prod.mk.injEq] at heq
        obtain ⟨-, hg⟩ := heq; subst hg
        push_neg at hl
        rcases getCell_eq_some g (idxOf g x y) cell hc with ⟨-, hlt, -⟩
        refine WF_capture g id p _ _ _ hpl hlt ?_ rfl rfl rfl h
        rw [cellOwner_of_getCell g _ _ hc]
        cases ho : cell.owner with
        | none => rfl
        | some k =>
          rw [ho] at hl
          simp at hl

theorem botClaim_WF (g : Game) (id : String) (x y : Int) (g' : Game)
    (h : WF g) (heq : botClaim g id x y = some g') : WF g' := by
  unfold botClaim at heq
  dsimp only at heq
  cases hc : getCell g (idxOf g x y) with
  | none => rw [hc] at heq; simp at heq
  | some cell =>
    rw [hc] at heq
    cases hpl : lookupPlayer g id with
    | none => rw [hpl] at heq; simp at heq
    | some bot =>
      rw [hpl] at heq
      simp only at heq
      by_cases hcond : cell.land = true ∧ cell.owner = none
      · rw [if_pos hcond] at heq
        simp only [Option.some.injEq] at heq
        subst heq
        rcases getCell_eq_some g (idxOf g x y) cell hc with ⟨-, hlt, -⟩
        refine WF_capture g id bot _ _ _ hpl hlt ?_ rfl rfl rfl h
        rw [cellOwner_of_getCell g _ _ hc]
        exact hcond.2
      · rw [if_neg hcond] at heq; simp at heq

theorem buildPort_WF (g : Game) (id : String) (x y : Int)
    (h : WF g) : WF (buildPort g id x y).2 := by
  unfold buildPort
  dsimp only
  cases hc : getCell g (idxOf g x y) with
  | none => exact h
  | some cell =>
    simp only
    by_cases h1 : cell.owner ≠ some id ∨ cell.land = false ∨ cell.port = true
    · rw [if_pos h1]; exact h
    rw [if_neg h1]
    by_cases h2 : hasWaterNeighbor g x y = false
    · rw [if_pos h2]; exact h
    rw [if_neg h2]
    cases hpl : lookupPlayer g id with
    | none => exact h
    | some p =>
      simp only
      by_cases h3 : p.troops < 5
      · rw [if_pos h3]; exact h
      · rw [if_neg h3]
        rcases getCell_eq_some g (idxOf g x y) cell hc with ⟨-, hlt, -⟩
        refine WF_build g id p _ _ _ hpl hlt ?_ h
        show cell.owner = cellOwner g (idxOf g x y).toNat
        rw [cellOwner_of_getCell g _ _ hc]

theorem buildCity_WF (g : Game) (id : String) (x y : Int)
    (h : WF g) : WF (buildCity g id x y).2 := by
  unfold buildCity
  dsimp only
  cases hc : getCell g (idxOf g x y) with
  | none => exact h
  | some cell =>
    simp only
    by_cases h1 : cell.owner ≠ some id ∨ cell.land = false ∨ cell.city = true
    · rw [if_pos h1]; exact h
    rw [if_neg h1]
    cases hpl : lookupPlayer g id with
    | none => exact h
    | some p =>
      simp only
      by_cases h3 : p.troops < 10
      · rw [if_pos h3]; exact h
      · rw [if_neg h3]
        rcases getCell_eq_some g (idxOf g x y) cell hc with ⟨-, hlt, -⟩
        refine WF_build g id p _ _ _ hpl hlt ?_ h
        show cell.owner = cellOwner g (idxOf g x y).toNat
        rw [cellOwner_of_getCell g _ _ hc]

theorem attack_WF (g : Game) (id : String) (sx sy dx dy : Int) (q : ℚ)
    (b : Bool) (g' : Game) (h : WF g)
    (heq : attack g id sx sy dx dy q = some (b, g')) : WF g' := by
  unfold attack at heq
  dsimp only at heq
  cases hpl : lookupPlayer g id with
  | none =>
    rw [hpl] at heq
    simp only [Option.some.injEq, Prod.mk.injEq] at heq
    obtain ⟨-, hg⟩ := heq; subst hg; exact h
  | some player =>
    rw [hpl] at heq
    cases hsc : getCell g (idxOf g sx sy) with
    | none =>
      rw [hsc] at heq
      simp only [Option.some.injEq, Prod.mk.injEq] at heq
      obtain ⟨-, hg⟩ := heq; subst hg; exact h
    | some srcCell =>
      rw [hsc] at heq
      simp only at heq
      by_cases ho : srcCell.owner ≠ some id
      · rw [if_pos ho] at heq
        simp only [Option.some.injEq, Prod.mk.injEq] at heq
        obtain ⟨-, hg⟩ := heq; subst hg; exact h
      rw [if_neg ho] at heq
      by_cases hgm : geomOk g srcCell sx sy dx dy = false
      · rw [if_pos hgm] at heq
        simp only [Option.some.injEq, Prod.mk.injEq] at heq
        obtain ⟨-, hg⟩ := heq; subst hg; exact h
      rw [if_neg hgm] at heq
      by_cases hts : toSendOf player.troops q < 1
      · rw [if_pos hts] at heq
        simp only [Option.some.injEq, Prod.mk.injEq] at heq
        obtain ⟨-, hg⟩ := heq; subst hg; exact h
      rw [if_neg hts] at heq
      have h1 : WF (setPlayer g id
          { player with troops := player.troops - toSendOf player.troops q }) :=
        WF_setPlayer_keep g id player _ hpl rfl rfl h
      have hpl1 : lookupPlayer (setPlayer g id
          { player with troops := player.troops - toSendOf player.troops q }) id =
          some { player with troops := player.troops - toSendOf player.troops q } := by
        rw [lookupPlayer_setPlayer_self, hpl]
        rfl
      cases hdc : getCell g (idxOf g dx dy) with
      | none => rw [hdc] at heq; simp at heq
      | some dstCell =>
        rw [hdc] at heq
        simp only at heq
        rcases getCell_eq_some g (idxOf g dx dy) dstCell hdc with ⟨-, hlt, -⟩
        cases hdo : dstCell.owner with
        | none =>
          rw [hdo] at heq
          simp only [Option.some.injEq, Prod.mk.injEq] at heq
          obtain ⟨-, hg⟩ := heq; subst hg
          refine WF_capture _ id _ _ _ _ hpl1 (by simpa using hlt) ?_ rfl rfl rfl h1
          rw [cellOwner_setPlayer, cellOwner_of_getCell g _ _ hdc]
          exact hdo
        | some defenderId =>
          rw [hdo] at heq
          simp only at heq
          by_cases hdid : defenderId = id
          · rw [if_pos hdid] at heq
            simp only [Option.some.injEq, Prod.mk.injEq] at heq
            obtain ⟨-, hg⟩ := heq; subst hg; exact h1
          rw [if_neg hdid] at heq
          cases hdl : lookupPlayer (setPlayer g id
              { player with troops := player.troops - toSendOf player.troops q })
              defenderId with
          | none =>
            rw [hdl] at heq
            simp only [Option.some.injEq, Prod.mk.injEq] at heq
            obtain ⟨-, hg⟩ := heq; subst hg; exact h1
          | some defender =>
            rw [hdl] at heq
            simp only at heq
            have hdefg : lookupPlayer g defenderId = some defender := by
              rw [lookupPlayer_setPlayer_ne _ _ _ _ hdid] at hdl
              exact hdl
            by_cases hw : defender.troops < toSendOf player.troops q
            · rw [if_pos hw] at heq
              simp only [Option.some.injEq, Prod.mk.injEq] at heq
              obtain ⟨-, hg⟩ := heq; subst hg
              refine WF_attack_win g id defenderId player defender _ _ _
                hpl hdefg hdid hlt ?_ rfl h
              rw [cellOwner_of_getCell g _ _ hdc]
              exact hdo
            · rw [if_neg hw] at heq
              simp only [Option.some.injEq, Prod.mk.injEq] at heq
              obtain ⟨-, hg⟩ := heq; subst hg
              exact WF_setPlayer_keep _ defenderId defender _ hdl rfl rfl h1

theorem runAttacks_WF (id : String) (x y : Int) (per : ℚ) :
    ∀ (ts : List (Int × Int)) (g : Game) (acc b : Bool) (g' : Game),
      WF g → runAttacks id x y per ts g acc = some (b, g') → WF g' := by
  intro ts
  induction ts with
  | nil =>
    intro g acc b g' h heq
    unfold runAttacks at heq
    simp only [Option.some.injEq, Prod.mk.injEq] at heq
    obtain ⟨-, hg⟩ := heq; subst hg; exact h
  | cons t rest ih =>
    intro g acc b g' h heq
    unfold runAttacks at heq
    cases ha : attack g id x y t.1 t.2 per with
    | none => rw [ha] at heq; simp at heq
    | some r =>
      obtain ⟨ok, g1⟩ := r
      rw [ha] at heq
      simp only at heq
      exact ih g1 (acc || ok) b g' (attack_WF g id x y t.1 t.2 per ok g1 h ha) heq

theorem expand_WF (g : Game) (id : String) (x y : Int) (q : ℚ)
    (b : Bool) (g' : Game) (h : WF g)
    (heq : expand g id x y q = some (b, g')) : WF g' := by
  unfold expand at heq
  cases hsc : getCell g (idxOf g x y) with
  | none =>
    rw [hsc] at heq
    simp only [Option.some.injEq, Prod.mk.injEq] at heq
    obtain ⟨-, hg⟩ := heq; subst hg; exact h
  | some srcCell =>
    rw [hsc] at heq
    simp only at heq
    by_cases ho : srcCell.owner ≠ some id
    · rw [if_pos ho] at heq
      simp only [Option.some.injEq, Prod.mk.injEq] at heq
      obtain ⟨-, hg⟩ := heq; subst hg; exact h
    rw [if_neg ho] at heq
    cases hpl : lookupPlayer g id with
    | none =>
      rw [hpl] at heq
      simp only [Option.some.injEq, Prod.mk.injEq] at heq
      obtain ⟨-, hg⟩ := heq; subst hg; exact h
    | some player =>
      rw [hpl] at heq
      simp only at heq
      by_cases hlen : (expandTargets g id x y srcCell).length = 0
      · rw [if_pos hlen] at heq
        simp only [Option.some.injEq, Prod.mk.injEq] at heq
        obtain ⟨-, hg⟩ := heq; subst hg; exact h
      · rw [if_neg hlen] at heq
        exact runAttacks_WF id x y _ _ g false b g' h heq

theorem Step_WF (g g' : Game) (hs : Step g g') (h : WF g) : WF g' := by
  cases hs with
  | join id nm b g2 hfresh heq =>
    have h2 : (addPlayer g id nm).2 = g' := by rw [heq]
    rw [← h2]
    exact addPlayer_WF g id nm hfresh h
  | leave id => exact removePlayer_WF g id h
  | doSpawn id x y b g2 heq => exact spawn_WF g id x y b g' h heq
  | doAttack id sx sy dx dy q b g2 heq => exact attack_WF g id sx sy dx dy q b g' h heq
  | doExpand id x y q b g2 heq => exact expand_WF g id x y q b g' h heq
  | doBuildPort id x y => exact buildPort_WF g id x y h
  | doBuildCity id x y => exact buildCity_WF g id x y h
  | tick => exact updateGrowth_WF g h
  | botSpawn id x y g2 heq => exact botClaim_WF g id x y g' h heq

theorem Reachable_WF (g g' : Game) (h : Reachable g g') (hw : WF g) : WF g' := by
  induction h with
  | refl => exact hw
  | tail hr hs ih => exact Step_WF _ _ hs ih

theorem initGame_owner_none (mask : List (List Bool)) (i : Nat) :
    cellOwner (initGame mask) i = none := by
  unfold cellOwner
  cases hg : (initGame mask).cells[i]? with
  | none => rfl
  | some c =>
    have hc : c ∈ (initGame mask).cells := by
      have := List.getElem?_eq_some_iff.mp hg
      rcases this with ⟨hlt, hval⟩
      rw [← hval]
      exact List.getElem_mem _
    unfold initGame at hc
    simp only [List.mem_flatMap, List.mem_map] at hc
    obtain ⟨row, -, b1, -, hb⟩ := hc
    rw [← hb]

theorem initGame_WF (mask : List (List Bool)) : WF (initGame mask) := by
  refine ⟨?_, ?_, ?_, ?_⟩
  · unfold KeysNodup initGame
    simp
  · intro i hi
    unfold ownerLive
    rw [initGame_owner_none]
  · intro kp hkp
    unfold initGame at hkp
    simp at hkp
  · intro kp hkp
    unfold initGame at hkp
    simp at hkp

/-- C7: at every state reachable from a fresh world by any sequence of
joins, leaves, spawns, attacks, expands, builds, growth ticks and bot
claims, each player's territory set contains exactly the indices of cells
whose owner equals that player's id. -/
theorem C7_territory_invariant (mask : List (List Bool)) (g : Game)
    (h : Reachable (initGame mask) g) : TerritoryExact g :=
  territoryExact_of_WF g (Reachable_WF _ g h (initGame_WF mask))

def w7g0 : Game := initGame [[true, true]]

def w7g1 : Game := (addPlayer w7g0 "a" "Alice").2

def w7g2 : Game := ((spawn w7g1 "a" 0 0).getD (false, w7g1)).2

/-- Witness for `C7_territory_invariant`: the state after a join and a spawn
on a 2×1 world, reached by an explicit step chain. -/
theorem C7_witness : TerritoryExact w7g2 :=
  C7_territory_invariant [[true, true]] w7g2
    (Relation.ReflTransGen.tail
      (Relation.ReflTransGen.tail Relation.ReflTransGen.refl
        (Step.join w7g0 "a" "Alice" true w7g1 (by decide) (by decide)))
      (Step.doSpawn w7g1 "a" 0 0 true w7g2 (by decide)))

end OpenFront

namespace OpenFront

/-! ### Expand: counterexample and amended refinement (claim C5) -/

/-- 3×1 world: `a` owns the middle cell with pool 10; both ends are free
land, so `expand` from `(1,0)` has exactly two targets. -/
def c5p : Player := { id := "a", name := "a", troops := 10, cells := {1} }

def c5g : Game :=
  { gridW := 3, gridH := 1, cells := [landCell, ownedCell "a", landCell],
    players := [("a", c5p)] }

def c5after : Game :=
  { c5g with
    cells := [{ landCell with owner := some "a" }, ownedCell "a",
      { landCell with owner := some "a" }],
    players := [("a", { c5p with troops := 3, cells := {2, 0, 1} })] }

/-- Counterexample to C5 as stated: `expand` with `fraction = 1` over `k = 2`
targets does NOT commit `floor(initialPool·fraction/k) = 5` on each
sub-attack.  The first sub-attack sends `floor(10/2) = 5`, but the second is
computed on the already-debited pool: `floor(5/2) = 2`, leaving pool 3 — the
claim's even division would leave `10 − 5 − 5 = 0`. -/
theorem C5_counterexample :
    expand c5g "a" 1 0 1 = some (true, c5after) ∧
    toSendOf c5p.troops (1 / 2) = 5 ∧
    toSendOf (c5p.troops - 5) (1 / 2) = 2 ∧
    c5p.troops - 5 - 5 ≠ c5p.troops - 5 - 2 := by
  refine ⟨?_, ?_, ?_, by decide⟩
  · with_unfolding_all rfl
  · with_unfolding_all decide
  · with_unfolding_all decide

/-- Modelled from the spec (§4.3 `expand`, with the division corrected to
the sequential behaviour): whether the cell at `(x,y)` is owned by `id`. -/
def specOwned (g : Game) (id : String) (x y : Int) : Bool :=
  decide (cellOwner g (idxOf g x y).toNat = some id)

/-- Modelled from the spec: the cell at `(x,y)` exists and is water. -/
def specWater (g : Game) (x y : Int) : Bool :=
  match getCell g (idxOf g x y) with
  | some c => !c.land
  | none => false

/-- Modelled from the spec: the cell at `(x,y)` exists and is land. -/
def specLand (g : Game) (x y : Int) : Bool :=
  match getCell g (idxOf g x y) with
  | some c => c.land
  | none => false

/-- Modelled from the spec: every valid attack target reachable from
`(x,y)` — the in-bounds Moore neighbours not owned by the player, plus,
when the source has a port, the port-jump destinations two straight or
diagonal steps out whose intermediate cell is water, whose destination is
land, in bounds, and not owned by the player. -/
def specTargets (g : Game) (id : String) (x y : Int) (srcCell : Cell) :
    List (Int × Int) :=
  ((neighborOffsets.map (fun d => (x + d.1, y + d.2))).filter
    (fun c => inBounds g c.1 c.2 && !specOwned g id c.1 c.2)) ++
  (if srcCell.port then
    ((portDirs.map (fun d => ((x + d.1, y + d.2), (x + d.1 * 2, y + d.2 * 2)))).filter
      (fun md => inBounds g md.2.1 md.2.2 && specWater g md.1.1 md.1.2 &&
        specLand g md.2.1 md.2.2 && !specOwned g id md.2.1 md.2.2)).map Prod.snd
  else [])

/-- Modelled from the spec: issue one `attack` per target in order, recording
each sub-attack's success flag. -/
def specRun (id : String) (x y : Int) (per : ℚ) :
    List (Int × Int) → Game → Option (List Bool × Game)
  | [], g => some ([], g)
  | t :: ts, g =>
    match attack g id x y t.1 t.2 per with
    | none => none
    | some (ok, g1) =>
      match specRun id x y per ts g1 with
      | none => none
      | some (bs, g2) => some (ok :: bs, g2)

/-- Modelled from the spec (amended): `expand` fails when the source cell or
the player is missing, the source is not owned by the player, or there are
no eligible targets; otherwise it issues one `attack` per target with
`fraction / targetCount` each — each sub-attack flooring against the pool
REMAINING at its turn — and succeeds iff at least one sub-attack succeeds. -/
def expandSpec (g : Game) (id : String) (x y : Int) (percent : ℚ) :
    Option (Bool × Game) :=
  match getCell g (idxOf g x y), lookupPlayer g id with
  | some srcCell, some _ =>
    if srcCell.owner = some id then
      let ts := specTargets g id x y srcCell
      if ts.isEmpty then some (false, g)
      else
        match specRun id x y (percent / (ts.length : ℚ)) ts g with
        | none => none
        | some (bs, g2) => some (bs.any (fun b => b), g2)
    else some (false, g)
  | _, _ => some (false, g)

end OpenFront

namespace OpenFront

theorem filterMap_congr_mem {α β : Type} (l : List α) (F G : α → Option β)
    (h : ∀ a ∈ l, F a = G a) : l.filterMap F = l.filterMap G := by
  induction l with
  | nil => rfl
  | cons a rest ih =>
    have hrest := ih (fun a ha => h a (List.mem_cons_of_mem _ ha))
    simp only [List.filterMap_cons, h a (List.mem_cons_self a rest), hrest]

theorem filter_map_snd_eq_filterMap {α β γ : Type} (l : List α) (fm : α → β)
    (p : β → Bool) (pr : β → γ) :
    ((l.map fm).filter p).map pr =
      l.filterMap (fun a => if p (fm a) then some (pr (fm a)) else none) := by
  induction l with
  | nil => rfl
  | cons a rest ih =>
    simp only [List.map_cons, List.filterMap_cons]
    by_cases hp : p (fm a)
    · rw [List.filter_cons_of_pos hp, if_pos hp, List.map_cons, ih]
    · rw [List.filter_cons_of_neg hp, if_neg hp, ih]

theorem filter_map_eq_filterMap {α β : Type} (l : List α) (fm : α → β) (p : β → Bool) :
    (l.map fm).filter p =
      l.filterMap (fun a => if p (fm a) then some (fm a) else none) := by
  have h := filter_map_snd_eq_filterMap l fm p (fun b => b)
  simpa using h

theorem getCell_inBounds (g : Game) (hlen : g.cells.length = g.gridW * g.gridH)
    (nx ny : Int) (hb : inBounds g nx ny = true) :
    ∃ c, getCell g (idxOf g nx ny) = some c ∧
      cellOwner g (idxOf g nx ny).toNat = c.owner := by
  unfold inBounds at hb
  rw [decide_eq_true_eq] at hb
  obtain ⟨h1, h2, h3, h4⟩ := hb
  have hW0 : (0 : ℤ) ≤ (g.gridW : ℤ) := Int.ofNat_nonneg _
  have hmul : ny * (g.gridW : ℤ) ≤ ((g.gridH : ℤ) - 1) * g.gridW :=
    mul_le_mul_of_nonneg_right (by omega) hW0
  have hnn : 0 ≤ idxOf g nx ny := by
    unfold idxOf
    have := mul_nonneg h2 hW0
    omega
  have hlt : idxOf g nx ny < ((g.gridW * g.gridH : ℕ) : ℤ) := by
    unfold idxOf
    have hexp : ((g.gridH : ℤ) - 1) * g.gridW = (g.gridH : ℤ) * g.gridW - g.gridW := by
      ring
    have hc : (g.gridH : ℤ) * g.gridW = (g.gridW : ℤ) * g.gridH := by ring
    push_cast
    omega
  have htn : (idxOf g nx ny).toNat < g.cells.length := by
    rw [hlen]
    omega
  refine ⟨g.cells[(idxOf g nx ny).toNat], ?_, ?_⟩
  · unfold getCell
    rw [if_neg (by omega)]
    exact List.getElem?_eq_getElem htn
  · unfold cellOwner
    rw [List.getElem?_eq_getElem htn]

theorem mid_inBounds (g : Game) (x y ddx ddy : Int)
    (hsrc : inBounds g x y = true)
    (hdest : inBounds g (x + ddx * 2) (y + ddy * 2) = true) :
    inBounds g (x + ddx) (y + ddy) = true := by
  unfold inBounds at *
  rw [decide_eq_true_eq] at hsrc hdest
  rw [decide_eq_true_eq]
  obtain ⟨a1, a2, a3, a4⟩ := hsrc
  obtain ⟨b1, b2, b3, b4⟩ := hdest
  refine ⟨by omega, by omega, by omega, by omega⟩

theorem specTargets_eq (g : Game) (id : String) (x y : Int) (srcCell : Cell)
    (hlen : g.cells.length = g.gridW * g.gridH)
    (hsrc : inBounds g x y = true) :
    expandTargets g id x y srcCell = specTargets g id x y srcCell := by
  unfold expandTargets specTargets
  congr 1
  · rw [filter_map_eq_filterMap]
    apply filterMap_congr_mem
    intro d _
    dsimp only
    by_cases hb : inBounds g (x + d.1) (y + d.2) = true
    · rw [if_pos hb]
      obtain ⟨c, hc, hco⟩ := getCell_inBounds g hlen _ _ hb
      rw [hc]
      simp only
      unfold specOwned
      rw [hco, hb]
      by_cases ho : c.owner = some id <;> simp [ho]
    · rw [if_neg hb]
      unfold specOwned
      have hb' : inBounds g (x + d.1) (y + d.2) = false :=
        Bool.not_eq_true _ ▸ (Bool.eq_false_iff.mpr (fun he => hb he))
      rw [hb']
      simp
  · by_cases hp : srcCell.port
    · rw [if_pos hp, if_pos hp]
      rw [filter_map_snd_eq_filterMap]
      apply filterMap_congr_mem
      intro d _
      dsimp only
      by_cases hb : inBounds g (x + d.1 * 2) (y + d.2 * 2) = true
      · rw [if_pos hb]
        have hmid := mid_inBounds g x y d.1 d.2 hsrc hb
        obtain ⟨mc, hmc, -⟩ := getCell_inBounds g hlen _ _ hmid
        obtain ⟨dc, hdc, hdco⟩ := getCell_inBounds g hlen _ _ hb
        rw [hmc, hdc]
        simp only
        unfold specWater specLand specOwned
        rw [hmc, hdc, hdco, hb]
        by_cases h1 : mc.land <;> by_cases h2 : dc.land <;>
          by_cases h3 : dc.owner = some id <;> simp [h1, h2, h3]
      · rw [if_neg hb]
        have hb' : inBounds g (x + d.1 * 2) (y + d.2 * 2) = false :=
          Bool.not_eq_true _ ▸ (Bool.eq_false_iff.mpr (fun he => hb he))
        rw [hb']
        simp
    · rw [if_neg hp, if_neg hp]

theorem runAttacks_eq_specRun (id : String) (x y : Int) (per : ℚ) :
    ∀ (ts : List (Int × Int)) (g : Game) (acc : Bool),
      runAttacks id x y per ts g acc =
        (specRun id x y per ts g).map (fun r => (acc || r.1.any (fun b => b), r.2)) := by
  intro ts
  induction ts with
  | nil =>
    intro g acc
    simp [runAttacks, specRun]
  | cons t rest ih =>
    intro g acc
    unfold runAttacks specRun
    cases attack g id x y t.1 t.2 per with
    | none => rfl
    | some r =>
      obtain ⟨ok, g1⟩ := r
      simp only
      rw [ih g1 (acc || ok)]
      cases specRun id x y per rest g1 with
      | none => rfl
      | some r2 =>
        obtain ⟨bs, g2⟩ := r2
        simp [Bool.or_assoc]

/-- C5, as amended: `expand` computes the reachable targets (the spec's
8-neighbour plus port-jump rule restricted to cells not owned by the
player), fails when the source cell or the player entry is missing, the
source is not owned, or there are no targets; otherwise it issues one
`attack` per target with `fraction / targetCount` each — each sub-attack
flooring `fraction/targetCount` against the pool REMAINING at its turn, not
against the initial pool — and succeeds iff at least one sub-attack
succeeds.  Stated as equality with `expandSpec`, written from the amended
spec wording. -/
theorem C5_amended (g : Game) (id : String) (x y : Int) (percent : ℚ)
    (hlen : g.cells.length = g.gridW * g.gridH)
    (hsrc : inBounds g x y = true) :
    expand g id x y percent = expandSpec g id x y percent := by
  unfold expand expandSpec
  cases hsc : getCell g (idxOf g x y) with
  | none => rfl
  | some srcCell =>
    simp only
    cases hpl : lookupPlayer g id with
    | none =>
      by_cases ho : srcCell.owner ≠ some id
      · rw [if_pos ho]
      · rw [if_neg ho]
    | some player =>
      simp only
      by_cases ho : srcCell.owner ≠ some id
      · rw [if_pos ho, if_neg (fun he => ho he)]
      · rw [if_neg ho]
        rw [if_pos (not_not.mp (fun hne => ho hne))]
        rw [← specTargets_eq g id x y srcCell hlen hsrc]
        by_cases hemp : (expandTargets g id x y srcCell).length = 0
        · rw [if_pos hemp]
          rw [if_pos (List.isEmpty_iff_length_eq_zero.mpr hemp)]
        · rw [if_neg hemp]
          rw [if_neg (fun he => hemp (List.isEmpty_iff_length_eq_zero.mp he))]
          rw [runAttacks_eq_specRun]
          cases specRun id x y (percent / ((expandTargets g id x y srcCell).length : ℚ))
              (expandTargets g id x y srcCell) g with
          | none => rfl
          | some r2 =>
            obtain ⟨bs, g2⟩ := r2
            simp

/-- Witness for `C5_amended` on the 3×1 fixture with `fraction = 1/2`. -/
theorem C5_witness :
    expand c5g "a" 1 0 (1/2) = expandSpec c5g "a" 1 0 (1/2) :=
  C5_amended c5g "a" 1 0 (1/2) (by decide) (by decide)

end OpenFront
